import Mathlib

/-!
Shallow embedding of `app.py` (NotesViewerBackend): a Flask backend storing
per-user files and a JSON user registry in a GitHub repository.  Machine
strings are modelled as `List Char`; Python `dict`s decoded from JSON are
modelled by `Json.obj` association lists with unique keys (duplicate keys
collapse on parse, later value wins, as in Python's `json.loads`).
External effects (GitHub API calls, `time.time()`, `uuid4()`) are passed to
the handler functions as explicit inputs, and each handler records which
backing-store mutation it attempted.  Exceptions raised by Python attribute
or type errors (e.g. `.get` on a non-dict) are modelled by `Except PyErr`.
-/

/-- Python `str` values are modelled as lists of unicode scalar characters. -/
abbrev Str := List Char

/-- Coerce a Lean string literal into the `Str` model. -/
def lit (s : String) : Str := s.data

/-- Characters stripped by Python `str.strip()` (ASCII whitespace; the
rarely-hit extra unicode space characters are not modelled). -/
def isPySpace (c : Char) : Bool :=
  c = ' ' || c = '\t' || c = '\n' || c = '\r' || c = '\x0b' || c = '\x0c'

/-- Python `s.strip()`. -/
def pyStrip (s : Str) : Str :=
  ((s.dropWhile isPySpace).reverse.dropWhile isPySpace).reverse

/-- Python `s.replace(" ", "_")` (single-character pattern, so a map). -/
def pyReplaceSpace (s : Str) : Str :=
  s.map (fun c => if c = ' ' then '_' else c)

/-- Python `c in "._-"` for a single character `c`. -/
def charInStr (c : Char) (s : Str) : Bool := s.contains c

/-- Embedding of `safe_filename` from app.py: the characters of `name`,
each kept when alphanumeric or one of `._-` and replaced by `_` otherwise,
joined back together (`"".join(...)`).  Python's unicode-aware
`str.isalnum` classifier is supplied as the parameter `isalnum`. -/
def safe_filename (isalnum : Char → Bool) (name : Str) : Str :=
  (name.map (fun c => if isalnum c || charInStr c (lit "._-") then [c] else ['_'])).flatten

/-- Decimal digit character. -/
def digitChar (n : Nat) : Char := Char.ofNat (48 + n)

/-- Decimal rendering of a natural number, most significant digit first
(accumulator form; the fuel `n+1` always suffices since `n / 10 < n`). -/
def natStrAux : Nat → Nat → Str → Str
  | 0, _, acc => acc
  | fuel + 1, n, acc =>
    if n < 10 then digitChar n :: acc
    else natStrAux fuel (n / 10) (digitChar (n % 10) :: acc)

/-- Python `str(n)` for a natural number. -/
def natStr (n : Nat) : Str := natStrAux (n + 1) n []

/-- Python `str(n)` for an integer. -/
def intStr : Int → Str
  | .ofNat n => natStr n
  | .negSucc m => '-' :: natStr (m + 1)

/-- JSON values as decoded by Python's `json` module.  Objects are
association lists with unique keys (parsing collapses duplicates exactly as
`dict` construction does, later value winning).  Float literals are kept as
their raw token text (`fnum`); no behaviour proved below depends on float
arithmetic. -/
inductive Json where
  | null : Json
  | bool (b : Bool) : Json
  | num (n : Int) : Json
  | fnum (raw : Str) : Json
  | str (s : Str) : Json
  | arr (xs : List Json) : Json
  | obj (kvs : List (Str × Json)) : Json

mutual
/-- Python `==` on decoded JSON values.  Scalars follow Python's numeric
coercions (`True == 1`); container comparison is structural (Python's
order-insensitive `dict.__eq__` is approximated by ordered comparison; no
claim below compares containers). -/
def jsonPyEq : Json → Json → Bool
  | .null, .null => true
  | .bool a, .bool b => a == b
  | .bool a, .num n => (if a then (1 : Int) else 0) == n
  | .num n, .bool b => n == (if b then (1 : Int) else 0)
  | .num a, .num b => a == b
  | .fnum a, .fnum b => a == b
  | .str a, .str b => a == b
  | .arr a, .arr b => jsonListPyEq a b
  | .obj a, .obj b => jsonKVPyEq a b
  | _, _ => false
def jsonListPyEq : List Json → List Json → Bool
  | [], [] => true
  | x :: xs, y :: ys => jsonPyEq x y && jsonListPyEq xs ys
  | _, _ => false
def jsonKVPyEq : List (Str × Json) → List (Str × Json) → Bool
  | [], [] => true
  | (k, v) :: xs, (k2, v2) :: ys => k == k2 && jsonPyEq v v2 && jsonKVPyEq xs ys
  | _, _ => false
end

/-- Python truthiness of a decoded JSON value (`fnum` is approximated as
truthy; a literal `0.0` would be falsy in Python, but floats never occur in
any behaviour proved below). -/
def pyTruthy : Json → Bool
  | .null => false
  | .bool b => b
  | .num n => n != 0
  | .fnum _ => true
  | .str s => !s.isEmpty
  | .arr xs => !xs.isEmpty
  | .obj kvs => !kvs.isEmpty

/-- Python `str()` of a decoded JSON value.  The `repr`-style rendering of
containers is abbreviated (no claim below applies `str` to a container). -/
def pyStr : Json → Str
  | .null => lit "None"
  | .bool true => lit "True"
  | .bool false => lit "False"
  | .num n => intStr n
  | .fnum raw => raw
  | .str s => s
  | .arr _ => lit "[...]"
  | .obj _ => lit "\x7b...\x7d"

/-- Exceptions surfacing from Python operations used by the handlers. -/
inductive PyErr where
  | attrError : PyErr
  | typeError : PyErr
deriving DecidableEq

/-- First-match lookup in a decoded object (its keys are unique). -/
def lookupStr (kvs : List (Str × Json)) (k : Str) : Option Json :=
  match kvs.find? (fun p => p.1 == k) with
  | some p => some p.2
  | none => none

/-- Python `dict` insertion `d[k] = v`: replace in place, append if new. -/
def insertKV : List (Str × Json) → Str → Json → List (Str × Json)
  | [], k, v => [(k, v)]
  | (k1, v1) :: rest, k, v =>
    if k1 == k then (k1, v) :: rest else (k1, v1) :: insertKV rest k v

/-- Substring test, for Python `in` on strings. -/
def isSubstr (pat s : Str) : Bool :=
  (List.range (s.length + 1)).any (fun i => pat.isPrefixOf (s.drop i))

/-- Python `k in j` for a string `k` and a decoded JSON value `j`:
key membership for dicts, element membership for lists, substring test for
strings, `TypeError` otherwise. -/
def pyContains : Json → Str → Except PyErr Bool
  | .obj kvs, k => .ok (kvs.any (fun p => p.1 == k))
  | .arr xs, k => .ok (xs.any (fun v => jsonPyEq v (.str k)))
  | .str s, k => .ok (isSubstr k s)
  | _, _ => .error .typeError

/-- Python `j.get(k)` for a string key: `AttributeError` unless `j` is a
dict. -/
def pyGetStr : Json → Str → Except PyErr (Option Json)
  | .obj kvs, k => .ok (lookupStr kvs k)
  | _, _ => .error .attrError

/-- Python `j.get(k)` where the key itself is a decoded JSON value (the
delete handler passes request-body values straight through): dict keys
decoded from JSON are always strings, so any other hashable key is simply
absent, and unhashable keys raise `TypeError`. -/
def pyGetJ : Json → Json → Except PyErr (Option Json)
  | .obj kvs, .str k => .ok (lookupStr kvs k)
  | .obj _, .arr _ => .error .typeError
  | .obj _, .obj _ => .error .typeError
  | .obj _, _ => .ok none
  | _, _ => .error .attrError

/-- Python `j[k] = v`: `TypeError` unless `j` is a dict. -/
def pySetStr : Json → Str → Json → Except PyErr Json
  | .obj kvs, k, v => .ok (.obj (insertKV kvs k v))
  | _, _, _ => .error .typeError

/-- Python `x or ""` followed by `str(...)`'s argument, for an optional
`dict.get` result: a missing or falsy value becomes the empty string. -/
def pyOrEmptyStr (v : Option Json) : Json :=
  match v with
  | some j => if pyTruthy j then j else .str []
  | none => .str []

/-! ## Serialization: `json.dumps(..., indent=2)` with `ensure_ascii` -/

/-- The newline-plus-indent separator `json.dumps` emits at `indent=2`. -/
def nlIndent (lvl : Nat) : Str := '\n' :: List.replicate (2 * lvl) ' '

/-- Four lowercase hex digits, for `\uXXXX` escapes. -/
def hexDigitChar (n : Nat) : Char :=
  if n < 10 then digitChar n else Char.ofNat (87 + n)

/-- Render `n % 0x10000` as four hex digits. -/
def hex4 (n : Nat) : Str :=
  [hexDigitChar (n / 4096 % 16), hexDigitChar (n / 256 % 16),
   hexDigitChar (n / 16 % 16), hexDigitChar (n % 16)]

/-- Escape one character the way `json.dumps` (default `ensure_ascii=True`)
does: printable ASCII other than quote and backslash is kept, the named
escapes are used where they exist, everything else becomes `\uXXXX`
(a surrogate pair beyond the BMP). -/
def escChar (c : Char) : Str :=
  if c = '"' then ['\\', '"']
  else if c = '\\' then ['\\', '\\']
  else if c = '\n' then ['\\', 'n']
  else if c = '\r' then ['\\', 'r']
  else if c = '\t' then ['\\', 't']
  else if c = '\x08' then ['\\', 'b']
  else if c = '\x0c' then ['\\', 'f']
  else if c.toNat < 0x20 || 0x7e < c.toNat then
    if c.toNat < 0x10000 then '\\' :: 'u' :: hex4 c.toNat
    else '\\' :: 'u' :: hex4 (0xd800 + (c.toNat - 0x10000) / 0x400)
         ++ '\\' :: 'u' :: hex4 (0xdc00 + (c.toNat - 0x10000) % 0x400)
  else [c]

/-- JSON string literal as `json.dumps` writes it. -/
def dumpStr (s : Str) : Str := '"' :: (s.map escChar).flatten ++ ['"']

mutual
/-- Serialization of a decoded JSON value exactly as
`json.dumps(v, indent=2)` renders it, `lvl` being the current nesting
level. -/
def dumpVal : Nat → Json → Str
  | _, .null => lit "null"
  | _, .bool true => lit "true"
  | _, .bool false => lit "false"
  | _, .num n => intStr n
  | _, .fnum raw => raw
  | _, .str s => dumpStr s
  | _, .arr [] => lit "[]"
  | lvl, .arr (x :: xs) =>
    '[' :: (nlIndent (lvl + 1) ++ dumpVal (lvl + 1) x
      ++ dumpMoreArr (lvl + 1) xs ++ nlIndent lvl ++ [']'])
  | _, .obj [] => ['\x7b', '\x7d']
  | lvl, .obj ((k, v) :: kvs) =>
    '\x7b' :: (nlIndent (lvl + 1) ++ dumpStr k ++ ':' :: ' ' :: dumpVal (lvl + 1) v
      ++ dumpMoreObj (lvl + 1) kvs ++ nlIndent lvl ++ ['\x7d'])
def dumpMoreArr : Nat → List Json → Str
  | _, [] => []
  | lvl, x :: xs => ',' :: nlIndent lvl ++ dumpVal lvl x ++ dumpMoreArr lvl xs
def dumpMoreObj : Nat → List (Str × Json) → Str
  | _, [] => []
  | lvl, (k, v) :: kvs =>
    ',' :: nlIndent lvl ++ dumpStr k ++ ':' :: ' ' :: dumpVal lvl v ++ dumpMoreObj lvl kvs
end

/-! ## Parsing: `json.loads` -/

/-- The whitespace `json.loads` skips between tokens. -/
def skipWs : Str → Str
  | [] => []
  | c :: cs => if c = ' ' || c = '\t' || c = '\n' || c = '\r' then skipWs cs else c :: cs

/-- Hex digit value, either case. -/
def hexVal : Char → Option Nat :=
  fun c =>
    if '0' ≤ c ∧ c ≤ '9' then some (c.toNat - 48)
    else if 'a' ≤ c ∧ c ≤ 'f' then some (c.toNat - 87)
    else if 'A' ≤ c ∧ c ≤ 'F' then some (c.toNat - 55)
    else none

/-- The single-character JSON string escapes, as Python's strict decoder
accepts them. -/
def escMap (e : Char) : Option Char :=
  if e = '"' then some '"'
  else if e = '\\' then some '\\'
  else if e = '/' then some '/'
  else if e = 'b' then some '\x08'
  else if e = 'f' then some '\x0c'
  else if e = 'n' then some '\n'
  else if e = 'r' then some '\r'
  else if e = 't' then some '\t'
  else none

/-- The combined value of four hex digits. -/
def hex4Val (a b c d : Char) : Option Nat :=
  (hexVal a).bind (fun x => (hexVal b).bind (fun y =>
    (hexVal c).bind (fun z => (hexVal d).map (fun w => 4096 * x + 256 * y + 16 * z + w))))

/-- Decode the four hex digits of a `\uXXXX` escape (after `\u`), combined
with a following low surrogate when the first code unit is a high
surrogate: the decoded character and the remaining input.  A lone
surrogate — which Python would keep as an unpaired-surrogate `str`
element, a value that has no `Char` counterpart — is a failure here. -/
def decodeU : Str → Option (Char × Str)
  | a :: b :: c2 :: d2 :: rest3 =>
    (hex4Val a b c2 d2).bind (fun n =>
      if 0xd800 ≤ n ∧ n ≤ 0xdbff then
        match rest3 with
        | e2 :: u2 :: a2 :: b2 :: c3 :: d3 :: rest4 =>
          if e2 = '\\' ∧ u2 = 'u' then
            (hex4Val a2 b2 c3 d3).bind (fun m =>
              if 0xdc00 ≤ m ∧ m ≤ 0xdfff then
                some (Char.ofNat (0x10000 + (n - 0xd800) * 0x400 + (m - 0xdc00)), rest4)
              else none)
          else none
        | _ => none
      else if 0xdc00 ≤ n ∧ n ≤ 0xdfff then none
      else some (Char.ofNat n, rest3))
  | _ => none

/-- Body of a JSON string literal after the opening quote, in strict mode:
raw control characters are rejected, the standard escapes and `\uXXXX`
escapes are decoded.  `fuel` only bounds the recursion; every step consumes
at least one character, so the `length + 1` fuel `parseStringBody` supplies
never runs out. -/
def parseStringBodyF : Nat → Str → Option (Str × Str)
  | 0, _ => none
  | _ + 1, [] => none
  | fuel + 1, c :: rest =>
    if c = '"' then some ([], rest)
    else if c = '\\' then
      match rest with
      | [] => none
      | e :: rest2 =>
        if e = 'u' then
          (decodeU rest2).bind
            (fun q => (parseStringBodyF fuel q.2).map (fun p => (q.1 :: p.1, p.2)))
        else
          (escMap e).bind
            (fun c1 => (parseStringBodyF fuel rest2).map (fun p => (c1 :: p.1, p.2)))
    else if c.toNat < 0x20 then none
    else (parseStringBodyF fuel rest).map (fun p => (c :: p.1, p.2))

/-- Body of a JSON string literal after the opening quote. -/
def parseStringBody (s : Str) : Option (Str × Str) := parseStringBodyF (s.length + 1) s

/-- Maximal run of decimal digits. -/
def takeDigits : Str → Str × Str
  | [] => ([], [])
  | c :: cs =>
    if c.isDigit then
      let p := takeDigits cs
      (c :: p.1, p.2)
    else ([], c :: cs)

/-- Numeric value of a digit run. -/
def digitsVal (ds : Str) : Nat := ds.foldl (fun a c => 10 * a + (c.toNat - 48)) 0

/-- The fraction part of Python's JSON number grammar `(\.\d+)?`,
returning the raw consumed text. -/
def parseFrac (s : Str) : Str × Str :=
  match s with
  | c :: c2 :: cs =>
    if c = '.' ∧ c2.isDigit = true then
      let p := takeDigits (c2 :: cs)
      ('.' :: p.1, p.2)
    else ([], s)
  | _ => ([], s)

/-- The exponent part of Python's JSON number grammar `([eE][-+]?\d+)?`,
returning the raw consumed text. -/
def parseExp (s : Str) : Str × Str :=
  match s with
  | e :: c2 :: cs =>
    if e = 'e' ∨ e = 'E' then
      if c2.isDigit then
        let p := takeDigits (c2 :: cs)
        (e :: p.1, p.2)
      else if c2 = '+' ∨ c2 = '-' then
        match cs with
        | c3 :: cs2 =>
          if c3.isDigit then
            let p := takeDigits (c3 :: cs2)
            (e :: c2 :: p.1, p.2)
          else ([], s)
        | [] => ([], s)
      else ([], s)
    else ([], s)
  | _ => ([], s)

/-- Fraction-and-exponent tail of a JSON number (raw consumed text). -/
def parseFracExp (s : Str) : Str × Str :=
  let fr := parseFrac s
  let ex := parseExp fr.2
  (fr.1 ++ ex.1, ex.2)

/-- Integer part of Python's JSON number grammar `(0|[1-9]\d*)` with the
optional fraction/exponent tail: a plain integer token yields `Json.num`,
any fraction or exponent makes it a float kept as its raw token. -/
def parseUnsigned (neg : Bool) (s : Str) : Option (Json × Str) :=
  match s with
  | [] => none
  | c :: cs =>
    if c = '0' then
      let p := parseFracExp cs
      if p.1 = [] then some (.num 0, cs)
      else some (.fnum ((if neg then ['-'] else []) ++ '0' :: p.1), p.2)
    else if c.isDigit then
      let d := takeDigits (c :: cs)
      let p := parseFracExp d.2
      if p.1 = [] then
        some (.num (if neg then -(digitsVal d.1 : Int) else (digitsVal d.1 : Int)), d.2)
      else some (.fnum ((if neg then ['-'] else []) ++ d.1 ++ p.1), p.2)
    else none

/-- A JSON number token (or `-Infinity`, which Python accepts). -/
def parseNumber (s : Str) : Option (Json × Str) :=
  match s with
  | [] => none
  | c :: rest =>
    if c = '-' then
      if (lit "Infinity").isPrefixOf rest then
        some (.fnum (lit "-Infinity"), rest.drop 8)
      else parseUnsigned true rest
    else parseUnsigned false (c :: rest)

mutual
/-- Recursive-descent value parser mirroring Python's `json.loads` scanner.
`fuel` only bounds the recursion; every recursive step consumes at least
one input character, so `length + 1` fuel (as used by `jsonLoads`) never
runs out. -/
def parseVal : Nat → Str → Option (Json × Str)
  | 0, _ => none
  | fuel + 1, s =>
    match s with
    | [] => none
    | c :: rest =>
      if c = '\x7b' then
        (match skipWs rest with
         | [] => parseMembers fuel [] []
         | c1 :: r =>
           if c1 = '\x7d' then some (.obj [], r) else parseMembers fuel (c1 :: r) [])
      else if c = '[' then
        (match skipWs rest with
         | [] => parseItems fuel [] []
         | c1 :: r =>
           if c1 = ']' then some (.arr [], r) else parseItems fuel (c1 :: r) [])
      else if c = '"' then (parseStringBody rest).map (fun p => (.str p.1, p.2))
      else if c = 't' then
        (if (lit "rue").isPrefixOf rest then some (.bool true, rest.drop 3) else none)
      else if c = 'f' then
        (if (lit "alse").isPrefixOf rest then some (.bool false, rest.drop 4) else none)
      else if c = 'n' then
        (if (lit "ull").isPrefixOf rest then some (.null, rest.drop 3) else none)
      else if c = 'N' then
        (if (lit "aN").isPrefixOf rest then some (.fnum (lit "NaN"), rest.drop 2) else none)
      else if c = 'I' then
        (if (lit "nfinity").isPrefixOf rest then some (.fnum (lit "Infinity"), rest.drop 7)
         else none)
      else if c = '-' ∨ c.isDigit = true then parseNumber (c :: rest)
      else none
def parseMembers : Nat → Str → List (Str × Json) → Option (Json × Str)
  | 0, _, _ => none
  | fuel + 1, s, acc =>
    match s with
    | [] => none
    | c0 :: rest =>
      if c0 = '"' then
        match parseStringBody rest with
        | none => none
        | some (k, r1) =>
          match skipWs r1 with
          | [] => none
          | c1 :: r2 =>
            if c1 = ':' then
              match parseVal fuel (skipWs r2) with
              | none => none
              | some (v, r3) =>
                match skipWs r3 with
                | [] => none
                | c2 :: r4 =>
                  if c2 = '\x7d' then some (.obj (insertKV acc k v), r4)
                  else if c2 = ',' then parseMembers fuel (skipWs r4) (insertKV acc k v)
                  else none
            else none
      else none
def parseItems : Nat → Str → List Json → Option (Json × Str)
  | 0, _, _ => none
  | fuel + 1, s, acc =>
    match parseVal fuel s with
    | none => none
    | some (v, r1) =>
      match skipWs r1 with
      | [] => none
      | c1 :: r2 =>
        if c1 = ']' then some (.arr (acc ++ [v]), r2)
        else if c1 = ',' then parseItems fuel (skipWs r2) (acc ++ [v])
        else none
end


/-- Python `json.loads`: skip whitespace, parse one value, require only
whitespace to remain. -/
def jsonLoads (s : Str) : Option Json :=
  let s1 := skipWs s
  match parseVal (s1.length + 1) s1 with
  | some (v, r) => if skipWs r = [] then some v else none
  | none => none

/-! ## The application: configuration, registry, handlers -/

/-- Process configuration (the module-level env-var constants of app.py). -/
structure Config where
  github_owner : Str
  github_repo : Str
  users_file_path : Str
  notes_folder : Str
  max_file_size : Nat

/-- The default configuration of app.py's constants. -/
def defaultConfig : Config :=
  ⟨lit "akmaurya321", lit "NotesViewer", lit "users.json", lit "notes",
   90 * 1024 * 1024⟩

/-- Result of a successful `get_repo_file`: content sha and the UTF-8
decoded content. -/
structure FileRec where
  sha : Str
  content : Str
deriving DecidableEq

/-- What `load_users_registry` returns: the registry file's sha (absent
when the file does not exist) and whatever `json.loads` produced (or `{}`
when the file is absent or unparsable). -/
structure LoadedReg where
  sha : Option Str
  data : Json

/-- Embedding of `load_users_registry`, given the outcome of
`get_repo_file(USERS_FILE_PATH)`. -/
def load_users_registry (rec : Option FileRec) : LoadedReg :=
  match rec with
  | none => ⟨none, Json.obj []⟩
  | some r =>
    match jsonLoads r.content with
    | some data => ⟨some r.sha, data⟩
    | none => ⟨some r.sha, Json.obj []⟩

/-- Embedding of `save_users_registry`'s serialized payload:
`json.dumps(users_dict, indent=2)` (UTF-8 encoding is the identity on the
character-sequence model). -/
def save_users_registry (users : Json) : Str := dumpVal 0 users

/-- Response of `/check/<userId>`. -/
structure CheckOut where
  available : Bool
deriving DecidableEq

/-- Embedding of the `check_user` handler. -/
def check_user (userId0 : Str) (regFile : Option FileRec) : Except PyErr CheckOut := do
  let userId := pyStrip userId0
  let registry := load_users_registry regFile
  let ex ← pyContains registry.data userId
  return ⟨!ex⟩

/-- Outcome of `/register`: HTTP status, the `save_users_registry` call it
attempted (payload dict and sha), if any, and the returned fields. -/
structure RegisterOut where
  status : Nat
  saved : Option (Json × Option Str)
  retUserId : Option Str
  retToken : Option Str

/-- Embedding of the `register` handler.  `body0` is the parsed request
body (`Json.null` when `get_json` failed; `or {}` is applied inside),
`tokenM` the token minted by `uuid4().hex`, `nowMs` the value of
`int(time.time()*1000)`, and `saveRes` the outcome of the registry write. -/
def register (body0 : Json) (regFile : Option FileRec) (tokenM : Str) (nowMs : Int)
    (saveRes : Except Str Unit) : Except PyErr RegisterOut := do
  let body := if pyTruthy body0 then body0 else Json.obj []
  let uidJ ← pyGetStr body (lit "userId")
  let userId0 := pyStr (pyOrEmptyStr uidJ)
  let dispJ ← pyGetStr body (lit "displayName")
  let display := pyStrip (pyStr (pyOrEmptyStr dispJ))
  let userId1 := pyStrip userId0
  if userId1 = [] then return ⟨400, none, none, none⟩
  let userId := pyReplaceSpace userId1
  if userId.length > 64 then return ⟨400, none, none, none⟩
  let registry := load_users_registry regFile
  let users := registry.data
  let present ← pyContains users userId
  if present then return ⟨409, none, none, none⟩
  let entry : Json := .obj [(lit "token", .str tokenM), (lit "display", .str display),
    (lit "createdAt", .num nowMs)]
  let users2 ← pySetStr users userId entry
  match saveRes with
  | .error _ => return ⟨500, some (users2, registry.sha), none, none⟩
  | .ok _ => return ⟨200, some (users2, registry.sha), some userId, some tokenM⟩

/-- A multipart file part: `filename` as supplied (Flask yields `''` or
`None` when absent) and the bytes `f.read()` returns. -/
structure FilePart where
  filename : Option Str
  content : List Nat
deriving DecidableEq

/-- Outcome of `/upload`: HTTP status, the `put_repo_file` call it
attempted (path and bytes), if any, and the returned fields. -/
structure UploadOut where
  status : Nat
  putCall : Option (Str × List Nat)
  retPath : Option Str
  retUrl : Option Str
deriving DecidableEq

/-- Python `f.filename or "file"`: the supplied filename when truthy, the
literal `file` otherwise. -/
def orFile : Option Str → Str
  | some s => if s = [] then lit "file" else s
  | none => lit "file"

/-- Embedding of the `upload` handler.  `filePart` is `request.files`'s
`file` entry, `userIdForm`/`tokenForm` the form fields, `tsMs` the value of
`int(time.time()*1000)`, `putRes` the outcome of the GitHub upload. -/
def upload (cfg : Config) (isalnum : Char → Bool) (filePart : Option FilePart)
    (userIdForm tokenForm : Option Str) (regFile : Option FileRec) (tsMs : Nat)
    (putRes : Except Str Unit) : Except PyErr UploadOut := do
  match filePart with
  | none => return ⟨400, none, none, none⟩
  | some f =>
    let userId := pyStrip (match userIdForm with | some s => s | none => [])
    let token := pyStrip (match tokenForm with | some s => s | none => [])
    if userId = [] || token = [] then return ⟨400, none, none, none⟩
    let registry := load_users_registry regFile
    let entry? ← pyGetStr registry.data userId
    let credOk ← (match entry? with
      | none => pure false
      | some e =>
        if pyTruthy e then do
          let t ← pyGetStr e (lit "token")
          pure (match t with | some tv => jsonPyEq tv (.str token) | none => false)
        else pure false)
    if !credOk then return ⟨403, none, none, none⟩
    let fname0 := orFile f.filename
    let filename := safe_filename isalnum fname0
    let safe_name := natStr tsMs ++ '_' :: filename
    let repo_path := cfg.notes_folder ++ '/' :: userId ++ '/' :: safe_name
    let size := f.content.length
    if size > cfg.max_file_size then return ⟨413, none, none, none⟩
    match putRes with
    | .error _ => return ⟨500, some (repo_path, f.content), none, none⟩
    | .ok _ =>
      let public_url := lit "https://" ++ cfg.github_owner ++ lit ".github.io/"
        ++ cfg.github_repo ++ '/' :: repo_path
      return ⟨200, some (repo_path, f.content), some repo_path, some public_url⟩

/-- One entry of the GitHub directory-contents response, with the fields
`list_user` reads (each possibly absent, as `dict.get` sees them). -/
structure DirItem where
  type : Option Str
  name : Option Str
  path : Option Str
  download_url : Option Str

/-- The GitHub response to the directory listing request. -/
inductive ListResp where
  | ok (items : List DirItem) : ListResp
  | notFound : ListResp
  | upstream (status : Nat) (body : Str) : ListResp

/-- Response of `/list/<userId>`. -/
structure ListOut where
  status : Nat
  files : Option (List (Option Str × Option Str × Option Str))
deriving DecidableEq

/-- Embedding of the `list_user` handler. -/
def list_user (userId0 : Str) (regFile : Option FileRec) (resp : ListResp) :
    Except PyErr ListOut := do
  let userId := pyStrip userId0
  let registry := load_users_registry regFile
  let present ← pyContains registry.data userId
  if !present then return ⟨404, none⟩
  match resp with
  | .ok items =>
    let files := items.foldl
      (fun acc it =>
        if it.type == some (lit "file") then acc ++ [(it.name, it.path, it.download_url)]
        else acc) []
    return ⟨200, some files⟩
  | .notFound => return ⟨200, some []⟩
  | .upstream _ _ => return ⟨500, none⟩

/-- Outcome of `/delete`: HTTP status and the `delete_repo_file` call it
attempted (the path), if any. -/
structure DeleteOut where
  status : Nat
  delCall : Option Str
deriving DecidableEq

/-- Embedding of the `delete_file` handler.  `body0` is the parsed request
body, `getFile` the outcome of `get_repo_file(filePath)`, `delRes` the
outcome of the GitHub delete call. -/
def delete_file (cfg : Config) (body0 : Json) (regFile : Option FileRec)
    (getFile : Option FileRec) (delRes : Except Str Unit) : Except PyErr DeleteOut := do
  let body := if pyTruthy body0 then body0 else Json.obj []
  let filePath? ← pyGetStr body (lit "filePath")
  let userId? ← pyGetStr body (lit "userId")
  let token? ← pyGetStr body (lit "token")
  let truthyOpt : Option Json → Bool := fun v =>
    match v with | some j => pyTruthy j | none => false
  if !(truthyOpt filePath? && truthyOpt userId? && truthyOpt token?) then
    return ⟨400, none⟩
  let filePath := filePath?.getD Json.null
  let userId := userId?.getD Json.null
  let token := token?.getD Json.null
  let registry := load_users_registry regFile
  let entry? ← pyGetJ registry.data userId
  let credOk ← (match entry? with
    | none => pure false
    | some e =>
      if pyTruthy e then do
        let t ← pyGetStr e (lit "token")
        pure (match t with | some tv => jsonPyEq tv token | none => false)
      else pure false)
  if !credOk then return ⟨403, none⟩
  let fp ← (match filePath with
    | .str s => Except.ok s
    | _ => Except.error PyErr.attrError)
  let base := cfg.notes_folder ++ '/' :: pyStr userId ++ ['/']
  if !(base.isPrefixOf fp) then return ⟨403, none⟩
  match getFile with
  | none => return ⟨404, none⟩
  | some _ =>
    match delRes with
    | .error _ => return ⟨500, some fp⟩
    | .ok _ => return ⟨200, some fp⟩

/-! ## The registry data model of the specification -/

/-- A registry record: `{token, display, createdAt}`. -/
structure UserRecord where
  token : Str
  display : Str
  createdAt : Int
deriving DecidableEq

/-- The JSON object `register` builds for one user record. -/
def userRecordJson (r : UserRecord) : Json :=
  .obj [(lit "token", .str r.token), (lit "display", .str r.display),
    (lit "createdAt", .num r.createdAt)]

/-- The registry dict for a mapping of userIds to records. -/
def regJson (users : List (Str × UserRecord)) : Json :=
  .obj (users.map (fun p => (p.1, userRecordJson p.2)))

/-! ## Lemmas about `safe_filename` -/

theorem charInStr_special (c : Char) :
    charInStr c (lit "._-") = (c == '.' || c == '_' || c == '-') := by
  simp only [charInStr, lit, List.contains]
  rw [Bool.eq_iff_iff]
  simp [String.data]
  tauto

/-- The character-wise form of `safe_filename`. -/
theorem safe_filename_eq_map (isalnum : Char → Bool) (name : Str) :
    safe_filename isalnum name =
      name.map (fun c => if isalnum c || (c == '.' || c == '_' || c == '-') then c else '_') := by
  simp only [safe_filename, charInStr_special]
  induction name with
  | nil => rfl
  | cons c cs ih =>
    simp only [List.map_cons, List.flatten_cons, ih]
    by_cases h : (isalnum c || (c == '.' || c == '_' || c == '-')) = true
    · simp [h]
    · simp [h]

/-- C6: `safe_filename` keeps each character that is alphanumeric or one of
`.`, `_`, `-` unchanged and replaces every other character with `_`
(stated position-wise via `getElem?`, which also fixes the length). -/
theorem safe_filename_charwise (isalnum : Char → Bool) (name : Str) (i : Nat) :
    (safe_filename isalnum name)[i]? =
      (name[i]?).map
        (fun c => if isalnum c || (c == '.' || c == '_' || c == '-') then c else '_') := by
  rw [safe_filename_eq_map, List.getElem?_map]

/-- C10: `safe_filename` is idempotent; sanitized names are a fixed point
of sanitization (for any alphanumeric classifier, since every character it
emits is either kept by the keep-test or is `_`, which the keep-test
accepts). -/
theorem safe_filename_idempotent (isalnum : Char → Bool) (s : Str) :
    safe_filename isalnum (safe_filename isalnum s) = safe_filename isalnum s := by
  rw [safe_filename_eq_map, safe_filename_eq_map, List.map_map]
  apply List.map_congr_left
  intro c _
  by_cases h : (isalnum c || (c == '.' || c == '_' || c == '-')) = true
  · simp [Function.comp, h]
  · simp [Function.comp, h]

/-! ## Evaluation lemmas for the `Except` monad -/

theorem exBind_ok {e a b : Type} (x : a) (f : a → Except e b) :
    (Except.ok x : Except e a) >>= f = f x := rfl

theorem exBind_err {e a b : Type} (x : e) (f : a → Except e b) :
    (Except.error x : Except e a) >>= f = Except.error x := rfl

theorem exPure_def {e a : Type} (x : a) : (pure x : Except e a) = Except.ok x := rfl

/-! ## Claim C1: the delete handler's namespace check -/

/-- C1: for every delete request that specifies a filePath, a userId and a
token (all non-empty strings), where the filePath does not begin with
`NOTES_FOLDER + "/" + userId + "/"`, the delete handler answers 403 and
never invokes the backing-store delete operation — so a file under another
user's namespace cannot be deleted this way.  The registry is assumed
well-formed in the sense that a truthy entry for the userId, if any, is a
record object (every registry this system writes satisfies that); both 403
branches (credential mismatch and prefix rejection) are covered. -/
theorem delete_outside_namespace_403 (cfg : Config) (regFile getFile : Option FileRec)
    (delRes : Except Str Unit) (fp ui tok : Str) (users : List (Str × Json))
    (hfp : fp ≠ []) (hui : ui ≠ []) (htok : tok ≠ [])
    (hdata : (load_users_registry regFile).data = Json.obj users)
    (hent : ∀ e, lookupStr users ui = some e → pyTruthy e = true → ∃ kvs, e = Json.obj kvs)
    (hpfx : (cfg.notes_folder ++ '/' :: ui ++ ['/']).isPrefixOf fp = false) :
    delete_file cfg
      (Json.obj [(lit "filePath", .str fp), (lit "userId", .str ui), (lit "token", .str tok)])
      regFile getFile delRes = .ok ⟨403, none⟩ := by
  have hfpe : fp.isEmpty = false := by
    cases fp with | nil => exact absurd rfl hfp | cons a l => rfl
  have huie : ui.isEmpty = false := by
    cases ui with | nil => exact absurd rfl hui | cons a l => rfl
  have htoke : tok.isEmpty = false := by
    cases tok with | nil => exact absurd rfl htok | cons a l => rfl
  have gfp : lookupStr [(lit "filePath", Json.str fp), (lit "userId", Json.str ui),
      (lit "token", Json.str tok)] (lit "filePath") = some (Json.str fp) := rfl
  have gui : lookupStr [(lit "filePath", Json.str fp), (lit "userId", Json.str ui),
      (lit "token", Json.str tok)] (lit "userId") = some (Json.str ui) := rfl
  have gtok : lookupStr [(lit "filePath", Json.str fp), (lit "userId", Json.str ui),
      (lit "token", Json.str tok)] (lit "token") = some (Json.str tok) := rfl
  rcases hl : lookupStr users ui with _ | e
  · simp only [delete_file, pyGetStr, pyGetJ, pyTruthy, gfp, gui, gtok, hdata, hl,
      hfpe, huie, htoke, exBind_ok, exPure_def, List.isEmpty_cons, Bool.not_false,
      Bool.not_true, Option.getD_some, if_true, if_false, Bool.and_self, Bool.and_false,
      Bool.false_and, Bool.and_true, Bool.true_and]
    rfl
  · by_cases ht : pyTruthy e = true
    · obtain ⟨kvs, rfl⟩ := hent e hl ht
      simp only [pyTruthy] at ht
      rcases hts : lookupStr kvs (lit "token") with _ | tv
      · simp only [delete_file, pyGetStr, pyGetJ, gfp, gui, gtok, hdata, hl, hts, ht,
          hfpe, huie, htoke, exBind_ok, exPure_def, List.isEmpty_cons, Bool.not_false,
          Bool.not_true, Option.getD_some, if_true, if_false, pyTruthy, ite_self]
        rfl
      · by_cases heq : jsonPyEq tv (Json.str tok) = true
        · simp only [delete_file, pyGetStr, pyGetJ, gfp, gui, gtok, hdata, hl, hts, ht,
            hfpe, huie, htoke, exBind_ok, exPure_def, List.isEmpty_cons, Bool.not_false,
            Bool.not_true, Option.getD_some, if_true, if_false, pyTruthy, heq, pyStr, hpfx,
            ite_self]
          rfl
        · simp only [Bool.not_eq_true] at heq
          simp only [delete_file, pyGetStr, pyGetJ, gfp, gui, gtok, hdata, hl, hts, ht,
            hfpe, huie, htoke, exBind_ok, exPure_def, List.isEmpty_cons, Bool.not_false,
            Bool.not_true, Option.getD_some, if_true, if_false, pyTruthy, heq, ite_self]
          rfl
    · simp only [Bool.not_eq_true] at ht
      simp only [pyTruthy] at ht
      simp only [delete_file, pyGetStr, pyGetJ, gfp, gui, gtok, hdata, hl,
        hfpe, huie, htoke, exBind_ok, exPure_def, List.isEmpty_cons, Bool.not_false,
        Bool.not_true, Option.getD_some, if_true, if_false, pyTruthy, ht, ite_self]
      rfl

/-- Witness for C1 at a concrete input: empty registry, request
`filePath="x"`, `userId="u"`, `token="t"`; the path does not start with
`notes/u/`, so 403 and no delete call. -/
theorem delete_outside_namespace_403_witness :
    delete_file defaultConfig
      (Json.obj [(lit "filePath", Json.str (lit "x")), (lit "userId", Json.str (lit "u")),
        (lit "token", Json.str (lit "t"))]) none none (.ok ()) = .ok ⟨403, none⟩ :=
  delete_outside_namespace_403 defaultConfig none none (.ok ()) (lit "x") (lit "u") (lit "t")
    [] (by decide) (by decide) (by decide) rfl
    (fun e he _ => Option.noConfusion he) (by decide)

/-! ## Claim C2: the upload handler's credential check -/

/-- C2 fails as stated: the file-present check runs before the credential
check, so an upload request without a file part and with a token matching
no stored record is answered 400 (missing file), not 403 as the claim
requires ("regardless of whether the file part is present"). -/
theorem upload_no_file_cex :
    upload defaultConfig Char.isAlphanum none (some (lit "alice")) (some (lit "wrong"))
        none 0 (.ok ()) = .ok ⟨400, none, none, none⟩ ∧
      upload defaultConfig Char.isAlphanum none (some (lit "alice")) (some (lit "wrong"))
        none 0 (.ok ()) ≠ .ok ⟨403, none, none, none⟩ := by
  refine ⟨rfl, ?_⟩
  intro h
  rw [show upload defaultConfig Char.isAlphanum none (some (lit "alice")) (some (lit "wrong"))
        none 0 (.ok ()) = .ok ⟨400, none, none, none⟩ from rfl] at h
  simp at h

/-- Auxiliary: Python `==` against a string compares equal only to that
string. -/
theorem jsonPyEq_str_right (v : Json) (t : Str) : jsonPyEq v (.str t) = true ↔ v = .str t := by
  cases v <;> simp [jsonPyEq]

/-- Auxiliary: a non-empty list is not `isEmpty`. -/
theorem isEmpty_false_of_ne_nil {l : Str} (h : l ≠ []) : l.isEmpty = false := by
  cases l with | nil => exact absurd rfl h | cons a as => rfl

/-- C2 amended: for every upload request whose file part is present and
whose userId and token fields are non-empty after stripping, a supplied
token that does not equal the token stored in the registry for that userId
(including when no record exists, the record carries no `token` key, or
the entry is falsy or a non-record value) is answered 403 with no upstream
put attempted — regardless of the file's name, content or size. -/
theorem upload_bad_token_403 (cfg : Config) (isalnum : Char → Bool) (f : FilePart)
    (uiRaw tokRaw : Str) (regFile : Option FileRec) (tsMs : Nat) (putRes : Except Str Unit)
    (users : List (Str × Json))
    (hui : pyStrip uiRaw ≠ []) (htok : pyStrip tokRaw ≠ [])
    (hdata : (load_users_registry regFile).data = Json.obj users)
    (hmis : match lookupStr users (pyStrip uiRaw) with
      | none => True
      | some (Json.obj kvs) => lookupStr kvs (lit "token") ≠ some (Json.str (pyStrip tokRaw))
      | some e => pyTruthy e = false) :
    upload cfg isalnum (some f) (some uiRaw) (some tokRaw) regFile tsMs putRes =
      .ok ⟨403, none, none, none⟩ := by
  have hd1 : decide (pyStrip uiRaw = []) = false := decide_eq_false hui
  have hd2 : decide (pyStrip tokRaw = []) = false := decide_eq_false htok
  rcases hl : lookupStr users (pyStrip uiRaw) with _ | e
  · simp only [upload, pyGetStr, hdata, hl, exBind_ok, exPure_def, hd1, hd2,
      Bool.or_self, Bool.not_false, if_true, if_false, ite_self]
    rfl
  · rw [hl] at hmis
    by_cases ht : pyTruthy e = true
    · cases e with
      | obj kvs =>
        dsimp only at hmis
        rcases hts : lookupStr kvs (lit "token") with _ | tv
        · simp only [pyTruthy] at ht
          simp only [upload, pyGetStr, hdata, hl, hts, ht, exBind_ok, exPure_def, hd1, hd2,
            Bool.or_self, Bool.not_false, Bool.not_true, if_true, if_false, ite_self]
          rfl
        · have hne : jsonPyEq tv (Json.str (pyStrip tokRaw)) = false := by
            rw [← Bool.not_eq_true, jsonPyEq_str_right]
            intro hv
            rw [hts, hv] at hmis
            exact hmis rfl
          simp only [pyTruthy] at ht
          simp only [upload, pyGetStr, hdata, hl, hts, ht, hne, exBind_ok, exPure_def,
            hd1, hd2, Bool.or_self, Bool.not_false, Bool.not_true, if_true, if_false, ite_self]
          rfl
      | null => simp [pyTruthy] at ht
      | bool b => dsimp only at hmis; rw [ht] at hmis; simp at hmis
      | num n => dsimp only at hmis; rw [ht] at hmis; simp at hmis
      | fnum raw => dsimp only at hmis; simp [pyTruthy] at hmis
      | str s => dsimp only at hmis; rw [ht] at hmis; simp at hmis
      | arr xs => dsimp only at hmis; rw [ht] at hmis; simp at hmis
    · simp only [Bool.not_eq_true] at ht
      simp only [pyTruthy] at ht
      simp only [upload, pyGetStr, hdata, hl, exBind_ok, exPure_def, hd1, hd2,
        Bool.or_self, Bool.not_false, Bool.not_true, if_true, if_false, pyTruthy, ht, ite_self]
      rfl

/-- Witness for the amended C2 at a concrete input: empty registry, file
present, `userId="alice"`, `token="wrong"`; upload answers 403 without a
put. -/
theorem upload_bad_token_403_witness :
    upload defaultConfig Char.isAlphanum (some ⟨some (lit "a.txt"), [65]⟩)
      (some (lit "alice")) (some (lit "wrong")) none 0 (.ok ()) =
      .ok ⟨403, none, none, none⟩ :=
  upload_bad_token_403 defaultConfig Char.isAlphanum ⟨some (lit "a.txt"), [65]⟩
    (lit "alice") (lit "wrong") none 0 (.ok ()) [] (by decide) (by decide) rfl trivial

/-! ## Claim C5: duplicate registration conflicts -/

/-- C5: a register request for a userId that — after stripping and
replacing spaces with underscores — is already present in the loaded
registry is answered 409 and attempts no registry write.  The hypotheses
that the transformed id is non-empty and at most 64 characters are exactly
the conditions under which a first `register` call can have created the
record (the handler rejects others with 400 before the presence check). -/
theorem register_conflict_409 (uid disp : Str) (regFile : Option FileRec)
    (tokenM : Str) (nowMs : Int) (saveRes : Except Str Unit) (users : List (Str × Json))
    (hne : pyStrip uid ≠ [])
    (hlen : (pyReplaceSpace (pyStrip uid)).length ≤ 64)
    (hdata : (load_users_registry regFile).data = Json.obj users)
    (hpresent : users.any (fun p => p.1 == pyReplaceSpace (pyStrip uid)) = true) :
    register (Json.obj [(lit "userId", Json.str uid), (lit "displayName", Json.str disp)])
      regFile tokenM nowMs saveRes = .ok ⟨409, none, none, none⟩ := by
  have huid : uid ≠ [] := by
    intro h; exact hne (by rw [h]; rfl)
  have huide : uid.isEmpty = false := isEmpty_false_of_ne_nil huid
  have hnogt : ¬ (pyReplaceSpace (pyStrip uid)).length > 64 := by omega
  have gud : lookupStr [(lit "userId", Json.str uid), (lit "displayName", Json.str disp)]
      (lit "userId") = some (Json.str uid) := rfl
  have gdp : lookupStr [(lit "userId", Json.str uid), (lit "displayName", Json.str disp)]
      (lit "displayName") = some (Json.str disp) := rfl
  simp only [register, pyGetStr, pyOrEmptyStr, pyStr, pyTruthy, gud, gdp, hdata, hpresent,
    exBind_ok, exPure_def, List.isEmpty_cons, Bool.not_false, Bool.not_true, huide,
    if_true, if_false, hne, hnogt, pyContains, ite_self]

/-- Witness for C5 at a concrete input: the registry file contains user
`u`; registering `u` again is answered 409 with no write (the registry
content is parsed from concrete JSON bytes). -/
theorem register_conflict_409_witness :
    register (Json.obj [(lit "userId", Json.str (lit "u")),
        (lit "displayName", Json.str (lit "d"))])
      (some ⟨lit "sha0", lit "\x7b\"u\": \x7b\"token\": \"t\"\x7d\x7d"⟩)
      (lit "feedfeed") 0 (.ok ()) = .ok ⟨409, none, none, none⟩ :=
  register_conflict_409 (lit "u") (lit "d")
    (some ⟨lit "sha0", lit "\x7b\"u\": \x7b\"token\": \"t\"\x7d\x7d"⟩)
    (lit "feedfeed") 0 (.ok ())
    [(lit "u", Json.obj [(lit "token", Json.str (lit "t"))])]
    (by decide) (by decide) rfl (by decide)

/-! ## Claim C4: loading an unparsable or non-object registry file -/

/-- C4 fails as stated: registry content that parses as JSON but is not an
object — here `[]` — is returned as-is by `load_users_registry`, which
therefore can return non-mapping data instead of the empty mapping the
claim requires for content "that does not parse as the expected
structure". -/
theorem load_registry_nonobject_cex :
    load_users_registry (some ⟨lit "s", lit "[]"⟩) = ⟨some (lit "s"), Json.arr []⟩ ∧
      Json.arr [] ≠ Json.obj [] :=
  ⟨rfl, fun h => Json.noConfusion h⟩

/-- C4 amended: only content on which `json.loads` itself fails is replaced
by the empty mapping (paired with the existing sha, so a later save
overwrites it); content that parses to any JSON value — object or not — is
returned unvalidated. -/
theorem load_registry_parse_failure (sha content : Str) :
    (jsonLoads content = none →
      load_users_registry (some ⟨sha, content⟩) = ⟨some sha, Json.obj []⟩) ∧
    (∀ v, jsonLoads content = some v →
      load_users_registry (some ⟨sha, content⟩) = ⟨some sha, v⟩) := by
  constructor
  · intro h; simp [load_users_registry, h]
  · intro v h; simp [load_users_registry, h]

/-- Witness for the amended C4: `not json` fails to parse, so loading
yields the empty mapping paired with the file's sha. -/
theorem load_registry_parse_failure_witness :
    load_users_registry (some ⟨lit "s", lit "not json"⟩) = ⟨some (lit "s"), Json.obj []⟩ :=
  (load_registry_parse_failure (lit "s") (lit "not json")).1 rfl

/-! ## Claim C8: the list handler -/

/-- Auxiliary: the accumulator form of `list_user`'s loop is filter + map. -/
theorem listFiles_foldl (items : List DirItem)
    (acc : List (Option Str × Option Str × Option Str)) :
    items.foldl
      (fun acc it =>
        if it.type == some (lit "file") then acc ++ [(it.name, it.path, it.download_url)]
        else acc) acc =
      acc ++ (items.filter (fun it => it.type == some (lit "file"))).map
        (fun it => (it.name, it.path, it.download_url)) := by
  induction items generalizing acc with
  | nil => simp
  | cons it its ih =>
    rw [List.foldl_cons, List.filter_cons]
    by_cases h : (it.type == some (lit "file")) = true
    · rw [if_pos h, if_pos h, ih]
      simp [List.append_assoc]
    · rw [if_neg h, if_neg h, ih]

/-- C8: for a userId present in the loaded registry (after stripping), the
list endpoint returns 200 with exactly the `type == "file"` directory
entries reduced to (name, path, download_url); returns 200 with an empty
list when the backing store reports 404 for the directory; and returns 500
on any other backing-store failure. -/
theorem list_user_cases (uiRaw : Str) (regFile : Option FileRec) (resp : ListResp)
    (users : List (Str × Json))
    (hdata : (load_users_registry regFile).data = Json.obj users)
    (hpres : users.any (fun p => p.1 == pyStrip uiRaw) = true) :
    (∀ items, resp = .ok items →
      list_user uiRaw regFile resp =
        .ok ⟨200, some ((items.filter (fun it => it.type == some (lit "file"))).map
          (fun it => (it.name, it.path, it.download_url)))⟩) ∧
    (resp = .notFound → list_user uiRaw regFile resp = .ok ⟨200, some []⟩) ∧
    (∀ st b, resp = .upstream st b → list_user uiRaw regFile resp = .ok ⟨500, none⟩) := by
  refine ⟨?_, ?_, ?_⟩
  · intro items h
    subst h
    simp [list_user, pyContains, hdata, hpres, exBind_ok, exPure_def]
    simpa using listFiles_foldl items []
  · intro h
    subst h
    simp [list_user, pyContains, hdata, hpres, exBind_ok, exPure_def]
  · intro st b h
    subst h
    simp [list_user, pyContains, hdata, hpres, exBind_ok, exPure_def]

/-- Witness for C8 at a concrete input: user `u` present (parsed from
concrete registry bytes), a directory listing with one file and one dir
entry; only the file entry is returned. -/
theorem list_user_cases_witness :
    list_user (lit "u") (some ⟨lit "s", lit "\x7b\"u\": \x7b\"token\": \"t\"\x7d\x7d"⟩)
      (.ok [⟨some (lit "file"), some (lit "n"), some (lit "p"), some (lit "d")⟩,
            ⟨some (lit "dir"), some (lit "n2"), some (lit "p2"), none⟩]) =
      .ok ⟨200, some [(some (lit "n"), some (lit "p"), some (lit "d"))]⟩ :=
  (list_user_cases (lit "u") (some ⟨lit "s", lit "\x7b\"u\": \x7b\"token\": \"t\"\x7d\x7d"⟩)
    (.ok [⟨some (lit "file"), some (lit "n"), some (lit "p"), some (lit "d")⟩,
          ⟨some (lit "dir"), some (lit "n2"), some (lit "p2"), none⟩])
    [(lit "u", Json.obj [(lit "token", Json.str (lit "t"))])] rfl (by decide)).1 _ rfl

/-! ## Claim C7: the path and url of a successful upload -/

/-- C7 fails as stated: a successful upload whose file part carries an
empty filename stores at `.../<ts>_file` (the code substitutes `"file"` for
a falsy filename), while the claim's formula
`NOTES_FOLDER/userId/<ts>_safe_filename(original filename)` would give
`.../<ts>_`. -/
theorem upload_path_empty_filename_cex :
    upload defaultConfig Char.isAlphanum (some ⟨some [], [65]⟩) (some (lit "alice"))
        (some (lit "secret"))
        (some ⟨lit "s", lit "\x7b\"alice\": \x7b\"token\": \"secret\"\x7d\x7d"⟩)
        5 (.ok ()) =
      .ok ⟨200, some (lit "notes/alice/5_file", [65]), some (lit "notes/alice/5_file"),
        some (lit "https://akmaurya321.github.io/NotesViewer/notes/alice/5_file")⟩ ∧
      lit "notes/alice/5_file" ≠
        defaultConfig.notes_folder ++ '/' :: lit "alice" ++ '/' :: natStr 5
          ++ '_' :: safe_filename Char.isAlphanum [] :=
  ⟨rfl, by decide⟩

/-- C7 amended: on every successful upload the returned path equals
`NOTES_FOLDER + "/" + strippedUserId + "/" + timestamp + "_" +
safe_filename(filename or "file")` — i.e. the sanitized supplied filename
when it is non-empty and `file` otherwise — and the url equals
`"https://" + GITHUB_OWNER + ".github.io/" + GITHUB_REPO + "/" + path`. -/
theorem upload_success_path (cfg : Config) (isalnum : Char → Bool) (f : FilePart)
    (uiRaw tokRaw : Str) (regFile : Option FileRec) (tsMs : Nat)
    (users kvs : List (Str × Json))
    (hui : pyStrip uiRaw ≠ []) (htok : pyStrip tokRaw ≠ [])
    (hdata : (load_users_registry regFile).data = Json.obj users)
    (hl : lookupStr users (pyStrip uiRaw) = some (Json.obj kvs))
    (hkvs : kvs ≠ [])
    (htk : lookupStr kvs (lit "token") = some (Json.str (pyStrip tokRaw)))
    (hsize : f.content.length ≤ cfg.max_file_size) :
    upload cfg isalnum (some f) (some uiRaw) (some tokRaw) regFile tsMs (.ok ()) =
      .ok ⟨200,
        some (cfg.notes_folder ++ '/' :: pyStrip uiRaw ++ '/' :: natStr tsMs
          ++ '_' :: safe_filename isalnum (orFile f.filename), f.content),
        some (cfg.notes_folder ++ '/' :: pyStrip uiRaw ++ '/' :: natStr tsMs
          ++ '_' :: safe_filename isalnum (orFile f.filename)),
        some (lit "https://" ++ cfg.github_owner ++ lit ".github.io/" ++ cfg.github_repo
          ++ '/' :: (cfg.notes_folder ++ '/' :: pyStrip uiRaw ++ '/' :: natStr tsMs
            ++ '_' :: safe_filename isalnum (orFile f.filename)))⟩ := by
  have hd1 : decide (pyStrip uiRaw = []) = false := decide_eq_false hui
  have hd2 : decide (pyStrip tokRaw = []) = false := decide_eq_false htok
  have hke : kvs.isEmpty = false := by
    cases kvs with | nil => exact absurd rfl hkvs | cons a as => rfl
  have heq : jsonPyEq (Json.str (pyStrip tokRaw)) (Json.str (pyStrip tokRaw)) = true := by
    simp [jsonPyEq]
  have hnogt : ¬ f.content.length > cfg.max_file_size := by omega
  simp only [upload, pyGetStr, hdata, hl, htk, exBind_ok, exPure_def, hd1, hd2,
    Bool.or_self, Bool.not_false, Bool.not_true, if_true, if_false, pyTruthy, hke,
    heq, hnogt, ite_self]
  simp [List.append_assoc]

/-- Witness for the amended C7 at a concrete input: uploading `a b.txt` for
user `alice` at timestamp 5 stores at `notes/alice/5_a_b.txt`. -/
theorem upload_success_path_witness :
    upload defaultConfig Char.isAlphanum (some ⟨some (lit "a b.txt"), [65, 66]⟩)
      (some (lit "alice")) (some (lit "secret"))
      (some ⟨lit "s", lit "\x7b\"alice\": \x7b\"token\": \"secret\"\x7d\x7d"⟩)
      5 (.ok ()) =
      .ok ⟨200,
        some (defaultConfig.notes_folder ++ '/' :: pyStrip (lit "alice") ++ '/' :: natStr 5
          ++ '_' :: safe_filename Char.isAlphanum (orFile (some (lit "a b.txt"))), [65, 66]),
        some (defaultConfig.notes_folder ++ '/' :: pyStrip (lit "alice") ++ '/' :: natStr 5
          ++ '_' :: safe_filename Char.isAlphanum (orFile (some (lit "a b.txt")))),
        some (lit "https://" ++ defaultConfig.github_owner ++ lit ".github.io/"
          ++ defaultConfig.github_repo
          ++ '/' :: (defaultConfig.notes_folder ++ '/' :: pyStrip (lit "alice")
            ++ '/' :: natStr 5
            ++ '_' :: safe_filename Char.isAlphanum (orFile (some (lit "a b.txt")))))⟩ :=
  upload_success_path defaultConfig Char.isAlphanum ⟨some (lit "a b.txt"), [65, 66]⟩
    (lit "alice") (lit "secret")
    (some ⟨lit "s", lit "\x7b\"alice\": \x7b\"token\": \"secret\"\x7d\x7d"⟩) 5
    [(lit "alice", Json.obj [(lit "token", Json.str (lit "secret"))])]
    [(lit "token", Json.str (lit "secret"))]
    (by decide) (by decide) rfl rfl (fun h => List.noConfusion h) rfl (by decide)

/-! ## Stripping lemmas for the transformed userId -/

/-- The strip of a string is its right-trim after its left-trim. -/
theorem pyStrip_eq_rdropWhile (s : Str) :
    pyStrip s = List.rdropWhile isPySpace (s.dropWhile isPySpace) := rfl

/-- The space-to-underscore replacement of a stripped string is itself
stripped: stripping removed the surrounding whitespace and the replacement
only turns inner spaces into underscores. -/
theorem pyStrip_replace_pyStrip (s : Str) :
    pyStrip (pyReplaceSpace (pyStrip s)) = pyReplaceSpace (pyStrip s) := by
  set w := s.dropWhile isPySpace with hw
  set u := pyStrip s with hu
  have hue : u = List.rdropWhile isPySpace w := rfl
  have hpre : u <+: w := by rw [hue]; exact List.rdropWhile_prefix isPySpace w
  have hu0 : ∀ hl : 0 < u.length, isPySpace (u.get ⟨0, hl⟩) = false := by
    intro hl
    have hwl : 0 < w.length := lt_of_lt_of_le hl hpre.length_le
    have hg : u.get ⟨0, hl⟩ = w.get ⟨0, hwl⟩ := hpre.get_eq hl
    rw [hg]
    have h9 := List.dropWhile_get_zero_not isPySpace s hwl
    simpa using h9
  have hulast : ∀ hl : u ≠ [], isPySpace (u.getLast hl) = false := by
    intro hl
    have h2 : List.rdropWhile isPySpace w ≠ [] := by rw [← hue]; exact hl
    have := List.rdropWhile_last_not isPySpace w h2
    rw [Bool.not_eq_true] at this
    rw [show u.getLast hl = (List.rdropWhile isPySpace w).getLast h2 from by
      congr 1]
    exact this
  have hlen : (pyReplaceSpace u).length = u.length := List.length_map u _
  have h1 : List.dropWhile isPySpace (pyReplaceSpace u) = pyReplaceSpace u := by
    rw [List.dropWhile_eq_self_iff]
    intro hl
    have hul : 0 < u.length := by omega
    have hg : (pyReplaceSpace u).get ⟨0, hl⟩ =
        (if u.get ⟨0, hul⟩ = ' ' then '_' else u.get ⟨0, hul⟩) := by
      simp [pyReplaceSpace, List.get_eq_getElem]
    rw [hg]
    have h0 := hu0 hul
    by_cases hsp : u.get ⟨0, hul⟩ = ' '
    · rw [hsp] at h0; exact absurd h0 (by decide)
    · rw [if_neg hsp]; simpa [List.get_eq_getElem] using h0
  have h2 : List.rdropWhile isPySpace (pyReplaceSpace u) = pyReplaceSpace u := by
    rw [List.rdropWhile_eq_self_iff]
    intro hl
    have hune : u ≠ [] := by
      intro h; rw [h] at hl; exact hl rfl
    have hul : 0 < u.length := List.length_pos.mpr hune
    have hg : (pyReplaceSpace u).getLast hl =
        (if u.getLast hune = ' ' then '_' else u.getLast hune) := by
      rw [List.getLast_eq_getElem, List.getLast_eq_getElem]
      simp [pyReplaceSpace, hlen]
    rw [hg]
    have h0 := hulast hune
    by_cases hsp : u.getLast hune = ' '
    · rw [hsp] at h0; exact absurd h0 (by decide)
    · rw [if_neg hsp]
      simp [h0]
  rw [pyStrip_eq_rdropWhile, h1, h2]

/-- Auxiliary: after `d[k] = v`, the key `k` is present. -/
theorem insertKV_any_key (l : List (Str × Json)) (k : Str) (v : Json) :
    (insertKV l k v).any (fun p => p.1 == k) = true := by
  induction l with
  | nil => simp [insertKV]
  | cons a rest ih =>
    obtain ⟨k1, v1⟩ := a
    by_cases h : (k1 == k) = true
    · simp [insertKV, h]
    · simp only [Bool.not_eq_true] at h
      simp [insertKV, h, ih]

/-! ## Claim C9: register followed by check -/

/-- C9 fails as stated: registering the raw id `a b` (not previously
registered) succeeds — storing the transformed id `a_b` — but a subsequent
check for the same raw id `a b` only strips (it does not replace spaces)
and reports the id as still available, where the claim requires
unavailable.  The check runs against the registry bytes produced by
serializing the saved payload. -/
theorem register_check_space_cex :
    register (Json.obj [(lit "userId", Json.str (lit "a b"))]) none (lit "tok") 7 (.ok ()) =
      .ok ⟨200, some (Json.obj [(lit "a_b", Json.obj [(lit "token", Json.str (lit "tok")),
        (lit "display", Json.str []), (lit "createdAt", Json.num 7)])], none),
        some (lit "a_b"), some (lit "tok")⟩ ∧
    check_user (lit "a b")
      (some ⟨lit "sha1", save_users_registry (Json.obj [(lit "a_b",
        Json.obj [(lit "token", Json.str (lit "tok")), (lit "display", Json.str []),
          (lit "createdAt", Json.num 7)])])⟩) = .ok ⟨true⟩ :=
  ⟨rfl, rfl⟩

/-- C9 amended: for every raw userId that is non-empty after stripping and
at most 64 characters after replacing spaces with underscores, and whose
transformed id is absent from the loaded registry, `register` succeeds
(when the registry save succeeds), saving the registry extended at the
transformed id and returning it with the minted token; and a subsequent
check for the transformed id, against any registry file that loads to the
saved payload, reports unavailable.  (A check for the raw id can still
report available when the raw id contains spaces.) -/
theorem register_then_check_transformed (uiRaw disp : Str)
    (regFile regFile2 : Option FileRec) (tokenM : Str) (nowMs : Int)
    (users : List (Str × Json))
    (hne : pyStrip uiRaw ≠ [])
    (hlen : (pyReplaceSpace (pyStrip uiRaw)).length ≤ 64)
    (hdata : (load_users_registry regFile).data = Json.obj users)
    (habs : users.any (fun p => p.1 == pyReplaceSpace (pyStrip uiRaw)) = false)
    (hdata2 : (load_users_registry regFile2).data =
      Json.obj (insertKV users (pyReplaceSpace (pyStrip uiRaw))
        (Json.obj [(lit "token", Json.str tokenM), (lit "display", Json.str (pyStrip disp)),
          (lit "createdAt", Json.num nowMs)]))) :
    register (Json.obj [(lit "userId", Json.str uiRaw), (lit "displayName", Json.str disp)])
      regFile tokenM nowMs (.ok ()) =
      .ok ⟨200, some (Json.obj (insertKV users (pyReplaceSpace (pyStrip uiRaw))
        (Json.obj [(lit "token", Json.str tokenM), (lit "display", Json.str (pyStrip disp)),
          (lit "createdAt", Json.num nowMs)])), (load_users_registry regFile).sha),
        some (pyReplaceSpace (pyStrip uiRaw)), some tokenM⟩ ∧
    check_user (pyReplaceSpace (pyStrip uiRaw)) regFile2 = .ok ⟨false⟩ := by
  constructor
  · have huid : uiRaw ≠ [] := by
      intro h; exact hne (by rw [h]; rfl)
    have huide : uiRaw.isEmpty = false := isEmpty_false_of_ne_nil huid
    have hnogt : ¬ (pyReplaceSpace (pyStrip uiRaw)).length > 64 := by omega
    have gud : lookupStr [(lit "userId", Json.str uiRaw), (lit "displayName", Json.str disp)]
        (lit "userId") = some (Json.str uiRaw) := rfl
    have gdp : lookupStr [(lit "userId", Json.str uiRaw), (lit "displayName", Json.str disp)]
        (lit "displayName") = some (Json.str disp) := rfl
    simp only [register, pyGetStr, pySetStr, pyOrEmptyStr, pyStr, pyTruthy, gud, gdp,
      hdata, habs, exBind_ok, exPure_def, List.isEmpty_cons, Bool.not_false, Bool.not_true,
      huide, if_true, if_false, hne, hnogt, pyContains, ite_self]
    rcases hd : disp with _ | ⟨c, cs⟩
    · simp
    · simp
  · simp only [check_user, pyContains, hdata2, pyStrip_replace_pyStrip, exBind_ok,
      exPure_def, insertKV_any_key]
    rfl

/-- Witness for the amended C9 at a concrete input: registering raw id
` a b ` (so transformed id `a_b`) on an empty registry succeeds, and a
check for `a_b` against the serialized saved registry reports
unavailable. -/
theorem register_then_check_transformed_witness :
    register (Json.obj [(lit "userId", Json.str (lit " a b ")),
        (lit "displayName", Json.str (lit "D"))]) none (lit "tok") 7 (.ok ()) =
      .ok ⟨200, some (Json.obj (insertKV [] (pyReplaceSpace (pyStrip (lit " a b ")))
        (Json.obj [(lit "token", Json.str (lit "tok")),
          (lit "display", Json.str (pyStrip (lit "D"))),
          (lit "createdAt", Json.num 7)])), (load_users_registry none).sha),
        some (pyReplaceSpace (pyStrip (lit " a b "))), some (lit "tok")⟩ ∧
    check_user (pyReplaceSpace (pyStrip (lit " a b ")))
      (some ⟨lit "sha2", save_users_registry (Json.obj [(lit "a_b",
        Json.obj [(lit "token", Json.str (lit "tok")), (lit "display", Json.str (lit "D")),
          (lit "createdAt", Json.num 7)])])⟩) = .ok ⟨false⟩ :=
  register_then_check_transformed (lit " a b ") (lit "D") none
    (some ⟨lit "sha2", save_users_registry (Json.obj [(lit "a_b",
      Json.obj [(lit "token", Json.str (lit "tok")), (lit "display", Json.str (lit "D")),
        (lit "createdAt", Json.num 7)])])⟩)
    (lit "tok") 7 [] (by decide) (by decide) rfl (by decide) rfl

/-! ## Round-trip lemmas: whitespace -/

theorem skipWs_cons_not (c : Char) (l : Str)
    (hs : c ≠ ' ') (ht : c ≠ '\t') (hn : c ≠ '\n') (hr : c ≠ '\r') :
    skipWs (c :: l) = c :: l := by
  simp [skipWs, hs, ht, hn, hr]

theorem skipWs_space (l : Str) : skipWs (' ' :: l) = skipWs l := by simp [skipWs]

theorem skipWs_newline (l : Str) : skipWs ('\n' :: l) = skipWs l := by simp [skipWs]

theorem skipWs_replicate (k : Nat) (l : Str) :
    skipWs (List.replicate k ' ' ++ l) = skipWs l := by
  induction k with
  | zero => rfl
  | succ m ih => simpa [List.replicate_succ, skipWs] using ih

theorem skipWs_nlIndent (lvl : Nat) (l : Str) :
    skipWs (nlIndent lvl ++ l) = skipWs l := by
  simp only [nlIndent, List.cons_append, skipWs_newline, skipWs_replicate]

/-! ## Round-trip lemmas: hex escapes -/

theorem hexVal_hexDigitChar (k : Nat) (h : k < 16) : hexVal (hexDigitChar k) = some k := by
  interval_cases k <;> decide

theorem hex4_decode (n : Nat) (h : n < 65536) :
    4096 * (n / 4096 % 16) + 256 * (n / 256 % 16) + 16 * (n / 16 % 16) + n % 16 = n := by
  omega

/-! ## Round-trip lemmas: string escaping -/

/-- The printed four hex digits of `n <' 65536` decode back to `n`. -/
theorem hex4Val_hex4 (n : Nat) (h : n < 65536) :
    hex4Val (hexDigitChar (n / 4096 % 16)) (hexDigitChar (n / 256 % 16))
      (hexDigitChar (n / 16 % 16)) (hexDigitChar (n % 16)) = some n := by
  rw [hex4Val, hexVal_hexDigitChar _ (Nat.mod_lt _ (by norm_num)),
    hexVal_hexDigitChar _ (Nat.mod_lt _ (by norm_num)),
    hexVal_hexDigitChar _ (Nat.mod_lt _ (by norm_num)),
    hexVal_hexDigitChar _ (Nat.mod_lt _ (by norm_num))]
  simp [hex4_decode n h]

/-- Decoding the printed hex of a non-surrogate BMP code point. -/
theorem decodeU_hex4 (n : Nat) (h : n < 65536)
    (hns1 : ¬ (0xd800 ≤ n ∧ n ≤ 0xdbff)) (hns2 : ¬ (0xdc00 ≤ n ∧ n ≤ 0xdfff))
    (rest : Str) : decodeU (hex4 n ++ rest) = some (Char.ofNat n, rest) := by
  simp only [hex4, List.cons_append, List.nil_append, decodeU, hex4Val_hex4 n h,
    Option.some_bind, if_neg hns1, if_neg hns2]

/-- Decoding a printed surrogate pair. -/
theorem decodeU_hex4_pair (n m : Nat)
    (hn : 0xd800 ≤ n ∧ n ≤ 0xdbff) (hm : 0xdc00 ≤ m ∧ m ≤ 0xdfff) (rest : Str) :
    decodeU (hex4 n ++ '\\' :: 'u' :: hex4 m ++ rest) =
      some (Char.ofNat (0x10000 + (n - 0xd800) * 0x400 + (m - 0xdc00)), rest) := by
  rw [show hex4 n ++ '\\' :: 'u' :: hex4 m ++ rest =
      hexDigitChar (n / 4096 % 16) :: hexDigitChar (n / 256 % 16)
      :: hexDigitChar (n / 16 % 16) :: hexDigitChar (n % 16)
      :: '\\' :: 'u' :: hexDigitChar (m / 4096 % 16) :: hexDigitChar (m / 256 % 16)
      :: hexDigitChar (m / 16 % 16) :: hexDigitChar (m % 16) :: rest from rfl]
  simp only [decodeU]
  rw [hex4Val_hex4 n (by omega), Option.some_bind, if_pos hn,
    if_pos (And.intro trivial trivial), hex4Val_hex4 m (by omega), Option.some_bind,
    if_pos hm]

/-- Parsing one printed character: `escChar c` followed by anything parses
back to `c` plus the parse of the remainder, costing one unit of fuel. -/
theorem escChar_step (c : Char) (rest : Str) (fuel : Nat) :
    parseStringBodyF (fuel + 1) (escChar c ++ rest) =
      (parseStringBodyF fuel rest).map (fun p => (c :: p.1, p.2)) := by
  by_cases h1 : c = '"'
  · subst h1; rfl
  by_cases h2 : c = '\\'
  · subst h2; rfl
  by_cases h3 : c = '\n'
  · subst h3; rfl
  by_cases h4 : c = '\r'
  · subst h4; rfl
  by_cases h5 : c = '\t'
  · subst h5; rfl
  by_cases h6 : c = '\x08'
  · subst h6; rfl
  by_cases h7 : c = '\x0c'
  · subst h7; rfl
  have hv : c.toNat < 0xd800 ∨ (0xdfff < c.toNat ∧ c.toNat < 0x110000) := c.valid
  by_cases h8 : (decide (c.toNat < 0x20) || decide (0x7e < c.toNat)) = true
  · rw [escChar]
    rw [if_neg h1, if_neg h2, if_neg h3, if_neg h4, if_neg h5, if_neg h6, if_neg h7,
      if_pos h8]
    by_cases h9 : c.toNat < 0x10000
    · rw [if_pos h9]
      have hns1 : ¬ (0xd800 ≤ c.toNat ∧ c.toNat ≤ 0xdbff) := by omega
      have hns2 : ¬ (0xdc00 ≤ c.toNat ∧ c.toNat ≤ 0xdfff) := by omega
      have hstep : parseStringBodyF (fuel + 1) (('\\' :: 'u' :: hex4 c.toNat) ++ rest) =
          (decodeU (hex4 c.toNat ++ rest)).bind
            (fun q => (parseStringBodyF fuel q.2).map (fun p => (q.1 :: p.1, p.2))) := rfl
      rw [hstep, decodeU_hex4 c.toNat h9 hns1 hns2, Char.ofNat_toNat, Option.some_bind]
    · rw [if_neg h9]
      have hlt : c.toNat < 0x110000 := by omega
      have hs1 : (0xd800 ≤ 0xd800 + (c.toNat - 0x10000) / 0x400 ∧
          0xd800 + (c.toNat - 0x10000) / 0x400 ≤ 0xdbff) := by omega
      have hs2 : (0xdc00 ≤ 0xdc00 + (c.toNat - 0x10000) % 0x400 ∧
          0xdc00 + (c.toNat - 0x10000) % 0x400 ≤ 0xdfff) := by
        have := Nat.mod_lt (c.toNat - 0x10000) (y := 0x400) (by norm_num)
        omega
      have hcomb : 0x10000 + ((0xd800 + (c.toNat - 0x10000) / 0x400) - 0xd800) * 0x400
          + ((0xdc00 + (c.toNat - 0x10000) % 0x400) - 0xdc00) = c.toNat := by
        have := Nat.div_add_mod (c.toNat - 0x10000) 0x400
        omega
      have hstep : parseStringBodyF (fuel + 1)
          (('\\' :: 'u' :: hex4 (0xd800 + (c.toNat - 0x10000) / 0x400)
            ++ '\\' :: 'u' :: hex4 (0xdc00 + (c.toNat - 0x10000) % 0x400)) ++ rest) =
          (decodeU (hex4 (0xd800 + (c.toNat - 0x10000) / 0x400)
            ++ '\\' :: 'u' :: hex4 (0xdc00 + (c.toNat - 0x10000) % 0x400) ++ rest)).bind
            (fun q => (parseStringBodyF fuel q.2).map (fun p => (q.1 :: p.1, p.2))) := rfl
      rw [hstep, decodeU_hex4_pair _ _ hs1 hs2, hcomb, Char.ofNat_toNat, Option.some_bind]
  · rw [escChar]
    rw [if_neg h1, if_neg h2, if_neg h3, if_neg h4, if_neg h5, if_neg h6, if_neg h7,
      if_neg h8]
    simp only [Bool.or_eq_true, decide_eq_true_eq, not_or, Nat.not_lt] at h8
    have hctrl : ¬ c.toNat < 0x20 := by omega
    simp only [List.cons_append, List.nil_append, parseStringBodyF,
      if_neg h1, if_neg h2, if_neg hctrl]
    rfl

/-- Parsing the printed body of a string: the escaped characters followed
by a closing quote parse back to the original string. -/
theorem parseStringBodyF_dump (s : Str) : ∀ (fuel : Nat) (rest : Str),
    parseStringBodyF (s.length + fuel + 1) ((s.map escChar).flatten ++ '"' :: rest) =
      some (s, rest) := by
  induction s with
  | nil => intro fuel rest; rfl
  | cons c cs ih =>
    intro fuel rest
    rw [List.map_cons, List.flatten_cons, List.append_assoc]
    rw [show (c :: cs).length + fuel + 1 = (cs.length + fuel + 1) + 1 from by
      simp [List.length_cons]; omega]
    rw [escChar_step c _ (cs.length + fuel + 1), ih fuel rest]
    rfl

/-- Every escaped character occupies at least one printed character. -/
theorem escChar_length_pos (c : Char) : 1 ≤ (escChar c).length := by
  rw [escChar]
  split_ifs <;> simp [hex4]

/-- The printed body of a string is at least as long as the string. -/
theorem escBody_length_ge (s : Str) : s.length ≤ ((s.map escChar).flatten).length := by
  induction s with
  | nil => simp
  | cons c cs ih =>
    rw [List.map_cons, List.flatten_cons, List.length_append, List.length_cons]
    have := escChar_length_pos c
    omega

/-- Printed strings parse back exactly, leaving the remainder intact. -/
theorem parseStringBody_dump (s rest : Str) :
    parseStringBody ((s.map escChar).flatten ++ '"' :: rest) = some (s, rest) := by
  have hge := escBody_length_ge s
  obtain ⟨f, hf⟩ : ∃ f, ((s.map escChar).flatten ++ '"' :: rest).length + 1 =
      s.length + f + 1 := by
    refine ⟨((s.map escChar).flatten).length - s.length + rest.length + 1, ?_⟩
    rw [List.length_append, List.length_cons]
    omega
  rw [parseStringBody, hf, parseStringBodyF_dump s f rest]

/-! ## Round-trip lemmas: numbers -/

theorem natStrAux_acc (fuel : Nat) : ∀ (n : Nat) (acc : Str), n < fuel →
    natStrAux fuel n acc = natStrAux fuel n [] ++ acc := by
  induction fuel with
  | zero => intro n acc h; omega
  | succ f ih =>
    intro n acc h
    by_cases h10 : n < 10
    · simp [natStrAux, h10]
    · have hd : n / 10 < f := by omega
      simp only [natStrAux, if_neg h10]
      rw [ih (n / 10) (digitChar (n % 10) :: acc) hd, ih (n / 10) [digitChar (n % 10)] hd]
      simp

theorem natStrAux_fuel (fuel : Nat) : ∀ (gas n : Nat), n < fuel → n < gas →
    natStrAux fuel n [] = natStrAux gas n [] := by
  induction fuel with
  | zero => intro gas n h; omega
  | succ f ih =>
    intro gas n hf hg
    cases gas with
    | zero => omega
    | succ g =>
      by_cases h10 : n < 10
      · simp [natStrAux, h10]
      · have hdf : n / 10 < f := by omega
        have hdg : n / 10 < g := by omega
        simp only [natStrAux, if_neg h10]
        rw [natStrAux_acc f _ _ hdf, natStrAux_acc g _ _ hdg, ih g (n / 10) hdf hdg]

theorem natStr_ge10 (n : Nat) (h : 10 ≤ n) :
    natStr n = natStr (n / 10) ++ [digitChar (n % 10)] := by
  show natStrAux (n + 1) n [] = natStr (n / 10) ++ [digitChar (n % 10)]
  simp only [natStrAux, if_neg (by omega : ¬ n < 10)]
  rw [natStrAux_acc n (n / 10) _ (by omega),
    natStrAux_fuel n (n / 10 + 1) (n / 10) (by omega) (by omega)]
  rfl

theorem digitChar_isDigit (k : Nat) (h : k < 10) : (digitChar k).isDigit = true := by
  interval_cases k <;> decide

theorem digitChar_toNat (k : Nat) (h : k < 10) : (digitChar k).toNat = 48 + k := by
  interval_cases k <;> decide

theorem natStr_lt10 (n : Nat) (h : n < 10) : natStr n = [digitChar n] := by
  simp [natStr, natStrAux, h]

theorem natStr_all_digits (n : Nat) : ∀ c ∈ natStr n, c.isDigit = true := by
  induction n using Nat.strong_induction_on with
  | _ n ih =>
    by_cases h10 : n < 10
    · rw [natStr_lt10 n h10]
      intro c hc
      rw [List.mem_singleton] at hc
      subst hc
      exact digitChar_isDigit n h10
    · rw [natStr_ge10 n (by omega)]
      intro c hc
      rw [List.mem_append] at hc
      rcases hc with hc | hc
      · exact ih (n / 10) (by omega) c hc
      · rw [List.mem_singleton] at hc
        subst hc
        exact digitChar_isDigit _ (Nat.mod_lt _ (by norm_num))

theorem natStr_ne_nil (n : Nat) : natStr n ≠ [] := by
  by_cases h10 : n < 10
  · rw [natStr_lt10 n h10]; simp
  · rw [natStr_ge10 n (by omega)]; simp

theorem natStr_head_ne_zero (n : Nat) (h : 0 < n) :
    ∀ c, (natStr n).head? = some c → c ≠ '0' := by
  induction n using Nat.strong_induction_on with
  | _ n ih =>
    by_cases h10 : n < 10
    · rw [natStr_lt10 n h10]
      intro c hc
      simp only [List.head?_cons, Option.some_inj] at hc
      subst hc
      interval_cases n
      all_goals first | omega | decide
    · rw [natStr_ge10 n (by omega)]
      intro c hc
      have hne := natStr_ne_nil (n / 10)
      rw [List.head?_append_of_ne_nil _ hne] at hc
      exact ih (n / 10) (by omega) (by omega) c hc

theorem takeDigits_append (ds : Str) : ∀ (rest : Str),
    (∀ c ∈ ds, c.isDigit = true) →
    (∀ c, rest.head? = some c → c.isDigit = false) →
    takeDigits (ds ++ rest) = (ds, rest) := by
  induction ds with
  | nil =>
    intro rest _ hrest
    cases rest with
    | nil => rfl
    | cons r rs =>
      have := hrest r rfl
      simp [takeDigits, this]
  | cons c cs ih =>
    intro rest hds hrest
    have hc := hds c (by simp)
    simp only [List.cons_append, takeDigits, hc, if_true]
    rw [show cs.append rest = cs ++ rest from rfl,
      ih rest (fun x hx => hds x (by simp [hx])) hrest]

theorem digitsVal_append_digit (xs : Str) (d : Char) :
    digitsVal (xs ++ [d]) = 10 * digitsVal xs + (d.toNat - 48) := by
  simp [digitsVal, List.foldl_append]

theorem digitsVal_natStr (n : Nat) : digitsVal (natStr n) = n := by
  induction n using Nat.strong_induction_on with
  | _ n ih =>
    by_cases h10 : n < 10
    · rw [natStr_lt10 n h10]
      show 10 * 0 + ((digitChar n).toNat - 48) = n
      rw [digitChar_toNat n h10]
      omega
    · rw [natStr_ge10 n (by omega), digitsVal_append_digit, ih (n / 10) (by omega),
        digitChar_toNat _ (Nat.mod_lt _ (by norm_num))]
      omega

/-- A delimiter head (not `.`) stops the fraction scanner. -/
theorem parseFrac_delim (s : Str) (h : ∀ c, s.head? = some c → c ≠ '.') :
    parseFrac s = ([], s) := by
  match s with
  | [] => rfl
  | [c] => rfl
  | c :: c2 :: cs =>
    have hc := h c rfl
    simp only [parseFrac]
    rw [if_neg (fun hh => hc hh.1)]

/-- A delimiter head (not `e`/`E`) stops the exponent scanner. -/
theorem parseExp_delim (s : Str) (h : ∀ c, s.head? = some c → c ≠ 'e' ∧ c ≠ 'E') :
    parseExp s = ([], s) := by
  match s with
  | [] => rfl
  | [c] => rfl
  | c :: c2 :: cs =>
    have hc := h c rfl
    simp only [parseExp]
    rw [if_neg (fun hh => hh.elim hc.1 hc.2)]

/-- A delimiter head stops the whole fraction/exponent scanner. -/
theorem parseFracExp_delim (s : Str)
    (h : ∀ c, s.head? = some c → c ≠ '.' ∧ c ≠ 'e' ∧ c ≠ 'E') :
    parseFracExp s = ([], s) := by
  rw [parseFracExp, parseFrac_delim s (fun c hc => (h c hc).1)]
  rw [parseExp_delim s (fun c hc => (h c hc).2)]
  rfl

/-- The head of a number token may not be any other value starter. -/
theorem parseVal_digit_start (f : Nat) (d : Char) (l : Str) (hd : d.isDigit = true) :
    parseVal (f + 1) (d :: l) = parseNumber (d :: l) := by
  have n1 : d ≠ '\x7b' := fun h => by rw [h] at hd; exact absurd hd (by decide)
  have n2 : d ≠ '[' := fun h => by rw [h] at hd; exact absurd hd (by decide)
  have n3 : d ≠ '"' := fun h => by rw [h] at hd; exact absurd hd (by decide)
  have n4 : d ≠ 't' := fun h => by rw [h] at hd; exact absurd hd (by decide)
  have n5 : d ≠ 'f' := fun h => by rw [h] at hd; exact absurd hd (by decide)
  have n6 : d ≠ 'n' := fun h => by rw [h] at hd; exact absurd hd (by decide)
  have n7 : d ≠ 'N' := fun h => by rw [h] at hd; exact absurd hd (by decide)
  have n8 : d ≠ 'I' := fun h => by rw [h] at hd; exact absurd hd (by decide)
  simp only [parseVal, if_neg n1, if_neg n2, if_neg n3, if_neg n4, if_neg n5, if_neg n6,
    if_neg n7, if_neg n8, if_pos (Or.inr hd)]

/-- A number token that starts with a digit has no sign. -/
theorem parseNumber_digit (d : Char) (l : Str) (hd : d.isDigit = true) :
    parseNumber (d :: l) = parseUnsigned false (d :: l) := by
  have n0 : d ≠ '-' := fun h => by rw [h] at hd; exact absurd hd (by decide)
  simp only [parseNumber, if_neg n0]

/-- Parsing the printed decimal of a natural number followed by a
delimiter. -/
theorem parseUnsigned_natStr (neg : Bool) (n : Nat) (rest : Str)
    (hrest : ∀ c, rest.head? = some c →
      c.isDigit = false ∧ c ≠ '.' ∧ c ≠ 'e' ∧ c ≠ 'E') :
    parseUnsigned neg (natStr n ++ rest) =
      some (.num (if neg then -(n : Int) else (n : Int)), rest) := by
  have hfe : parseFracExp rest = ([], rest) :=
    parseFracExp_delim rest (fun c hc => (hrest c hc).2)
  by_cases h0 : n = 0
  · subst h0
    rw [show natStr 0 ++ rest = '0' :: rest from rfl]
    simp only [parseUnsigned, if_pos rfl, hfe]
    cases neg <;> simp
  · rcases hns : natStr n with _ | ⟨d, ds⟩
    · exact absurd hns (natStr_ne_nil n)
    have hd : d.isDigit = true := by
      have := natStr_all_digits n d
      rw [hns] at this
      exact this (by simp)
    have hdz : d ≠ '0' := by
      have := natStr_head_ne_zero n (by omega) d
      rw [hns] at this
      exact this rfl
    have htd : takeDigits (d :: (ds ++ rest)) = (d :: ds, rest) := by
      rw [show d :: (ds ++ rest) = (d :: ds) ++ rest from rfl, ← hns]
      exact takeDigits_append (natStr n) rest (natStr_all_digits n)
        (fun c hc => (hrest c hc).1)
    have hval : digitsVal (d :: ds) = n := by
      rw [← hns]; exact digitsVal_natStr n
    rw [List.cons_append]
    simp only [parseUnsigned, if_neg hdz, hd, if_true, htd, hfe, hval]

/-- Parsing a printed integer (as a JSON value) followed by a delimiter. -/
theorem parseVal_intStr (f : Nat) (k : Int) (rest : Str)
    (hrest : ∀ c, rest.head? = some c →
      c.isDigit = false ∧ c ≠ '.' ∧ c ≠ 'e' ∧ c ≠ 'E') :
    parseVal (f + 1) (intStr k ++ rest) = some (.num k, rest) := by
  cases k with
  | ofNat n =>
    rcases hns : natStr n with _ | ⟨d, ds⟩
    · exact absurd hns (natStr_ne_nil n)
    have hd : d.isDigit = true := by
      have := natStr_all_digits n d; rw [hns] at this; exact this (by simp)
    rw [show intStr (Int.ofNat n) = natStr n from rfl, hns, List.cons_append,
      parseVal_digit_start f d _ hd, parseNumber_digit d _ hd, ← List.cons_append, ← hns,
      parseUnsigned_natStr false n rest hrest]
    simp
  | negSucc m =>
    rw [show intStr (Int.negSucc m) ++ rest = '-' :: (natStr (m + 1) ++ rest) from by
      simp [intStr]]
    rw [show parseVal (f + 1) ('-' :: (natStr (m + 1) ++ rest)) =
      parseNumber ('-' :: (natStr (m + 1) ++ rest)) from rfl]
    rcases hns : natStr (m + 1) with _ | ⟨d, ds⟩
    · exact absurd hns (natStr_ne_nil (m + 1))
    have hd : d.isDigit = true := by
      have := natStr_all_digits (m + 1) d; rw [hns] at this; exact this (by simp)
    have hdI : d ≠ 'I' := fun h => by rw [h] at hd; exact absurd hd (by decide)
    have hni : (lit "Infinity").isPrefixOf (d :: (ds ++ rest)) = false := by
      rw [show lit "Infinity" = 'I' :: lit "nfinity" from rfl]
      rw [List.isPrefixOf]
      simp [hdI]
      intro h
      exact absurd h.symm hdI
    simp only [parseNumber, if_pos rfl]
    rw [List.cons_append, hni]
    simp only [Bool.false_eq_true, if_false]
    rw [← List.cons_append, ← hns, parseUnsigned_natStr true (m + 1) rest hrest]
    simp [Int.negSucc_eq]

/-! ## Round-trip lemmas: objects -/

theorem skipWs_dumpStr (k l : Str) : skipWs (dumpStr k ++ l) = dumpStr k ++ l := by
  rw [dumpStr, List.cons_append]
  exact skipWs_cons_not '"' _ (by decide) (by decide) (by decide) (by decide)

/-- One non-final printed member: parse the key, the `: `, the value, then
the `,` separator, and continue with the accumulator extended. -/
theorem parseMembers_more (f : Nat) (k : Str) (v : Json) (vs tail r4 : Str)
    (acc : List (Str × Json))
    (hws : skipWs (vs ++ tail) = vs ++ tail)
    (hv : parseVal f (vs ++ tail) = some (v, tail))
    (hd : skipWs tail = ',' :: r4) :
    parseMembers (f + 1) (dumpStr k ++ ':' :: ' ' :: (vs ++ tail)) acc =
      parseMembers f (skipWs r4) (insertKV acc k v) := by
  have h1 : parseStringBody ((k.map escChar).flatten ++ '"' :: (':' :: ' ' :: (vs ++ tail)))
      = some (k, ':' :: ' ' :: (vs ++ tail)) := parseStringBody_dump k _
  rw [show dumpStr k ++ ':' :: ' ' :: (vs ++ tail) =
      '"' :: ((k.map escChar).flatten ++ '"' :: (':' :: ' ' :: (vs ++ tail))) from by
    simp [dumpStr]]
  simp only [parseMembers, reduceIte, h1,
    skipWs_cons_not ':' _ (by decide) (by decide) (by decide) (by decide),
    skipWs_space, hws, hv, hd]
  rfl

/-- The final printed member: parse the key, the `: `, the value, then the
closing brace, and return the accumulated object. -/
theorem parseMembers_close (f : Nat) (k : Str) (v : Json) (vs tail r4 : Str)
    (acc : List (Str × Json))
    (hws : skipWs (vs ++ tail) = vs ++ tail)
    (hv : parseVal f (vs ++ tail) = some (v, tail))
    (hd : skipWs tail = '\x7d' :: r4) :
    parseMembers (f + 1) (dumpStr k ++ ':' :: ' ' :: (vs ++ tail)) acc =
      some (.obj (insertKV acc k v), r4) := by
  have h1 : parseStringBody ((k.map escChar).flatten ++ '"' :: (':' :: ' ' :: (vs ++ tail)))
      = some (k, ':' :: ' ' :: (vs ++ tail)) := parseStringBody_dump k _
  rw [show dumpStr k ++ ':' :: ' ' :: (vs ++ tail) =
      '"' :: ((k.map escChar).flatten ++ '"' :: (':' :: ' ' :: (vs ++ tail))) from by
    simp [dumpStr]]
  simp only [parseMembers, reduceIte, h1,
    skipWs_cons_not ':' _ (by decide) (by decide) (by decide) (by decide),
    skipWs_space, hws, hv, hd]

/-- A printed string literal parses back as a JSON string value. -/
theorem parseVal_dumpStr (g : Nat) (s rest : Str) :
    parseVal (g + 1) (dumpStr s ++ rest) = some (.str s, rest) := by
  rw [show dumpStr s ++ rest = '"' :: ((s.map escChar).flatten ++ '"' :: rest) from by
    simp [dumpStr]]
  simp only [parseVal, reduceIte, parseStringBody_dump]
  rfl

/-- A printed integer starts with a non-whitespace character. -/
theorem skipWs_intStr (k : Int) (l : Str) : skipWs (intStr k ++ l) = intStr k ++ l := by
  cases k with
  | ofNat n =>
    rcases hns : natStr n with _ | ⟨d, ds⟩
    · exact absurd hns (natStr_ne_nil n)
    have hd : d.isDigit = true := by
      have := natStr_all_digits n d; rw [hns] at this; exact this (by simp)
    rw [show intStr (Int.ofNat n) = natStr n from rfl, hns, List.cons_append]
    exact skipWs_cons_not d _
      (fun h => by rw [h] at hd; exact absurd hd (by decide))
      (fun h => by rw [h] at hd; exact absurd hd (by decide))
      (fun h => by rw [h] at hd; exact absurd hd (by decide))
      (fun h => by rw [h] at hd; exact absurd hd (by decide))
  | negSucc m =>
    rw [show intStr (Int.negSucc m) ++ l = '-' :: (natStr (m + 1) ++ l) from by
      simp [intStr]]
    exact skipWs_cons_not '-' _ (by decide) (by decide) (by decide) (by decide)

/-- Entering a printed non-empty object: one unit of fuel moves from
`parseVal` to `parseMembers` on the whitespace-stripped members text. -/
theorem parseVal_obj_nonempty (g : Nat) (s s1 : Str)
    (h : skipWs s = s1) (hne : s1.head? ≠ some '\x7d') (hnil : s1 ≠ []) :
    parseVal (g + 1) ('\x7b' :: s) = parseMembers g s1 [] := by
  rcases s1 with _ | ⟨c1, r⟩
  · exact absurd rfl hnil
  · have hc : ¬ c1 = '\x7d' := fun hh => hne (by rw [hh]; rfl)
    simp only [parseVal, reduceIte, h, if_neg hc]

/-- A printed user record (at nesting level 1, as the registry object
prints it) parses back to exactly the same record object. -/
theorem parseVal_record (f : Nat) (r : UserRecord) (rest : Str) :
    parseVal (f + 5) (dumpVal 1 (userRecordJson r) ++ rest) = some (userRecordJson r, rest) := by
  rw [show dumpVal 1 (userRecordJson r) ++ rest =
      '\x7b' :: (nlIndent 2 ++ (dumpStr (lit "token") ++ ':' :: ' ' :: (dumpStr r.token ++
        (',' :: (nlIndent 2 ++ (dumpStr (lit "display") ++ ':' :: ' ' :: (dumpStr r.display ++
        (',' :: (nlIndent 2 ++ (dumpStr (lit "createdAt") ++ ':' :: ' ' ::
          (intStr r.createdAt ++ (nlIndent 1 ++ '\x7d' :: rest)))))))))))) from by
    simp [userRecordJson, dumpVal, dumpMoreObj, dumpStr, List.append_assoc]]
  rw [show f + 5 = (f + 4) + 1 from rfl]
  rw [parseVal_obj_nonempty (f + 4) _ _
    (by rw [skipWs_nlIndent, skipWs_dumpStr]) (by simp [dumpStr]) (by simp [dumpStr])]
  rw [show f + 4 = (f + 3) + 1 from rfl]
  rw [parseMembers_more (f + 3) (lit "token") (.str r.token) (dumpStr r.token) _ _ []
    (skipWs_dumpStr _ _) (parseVal_dumpStr (f + 2) r.token _)
    (skipWs_cons_not ',' _ (by decide) (by decide) (by decide) (by decide))]
  rw [skipWs_nlIndent, skipWs_dumpStr]
  rw [show f + 3 = (f + 2) + 1 from rfl]
  rw [parseMembers_more (f + 2) (lit "display") (.str r.display) (dumpStr r.display) _ _ _
    (skipWs_dumpStr _ _) (parseVal_dumpStr (f + 1) r.display _)
    (skipWs_cons_not ',' _ (by decide) (by decide) (by decide) (by decide))]
  rw [skipWs_nlIndent, skipWs_dumpStr]
  rw [show f + 2 = (f + 1) + 1 from rfl]
  rw [parseMembers_close (f + 1) (lit "createdAt") (.num r.createdAt) (intStr r.createdAt) _ _ _
    (skipWs_intStr _ _)
    (parseVal_intStr f r.createdAt _ (by
      intro c hc
      rw [show (nlIndent 1 ++ '\x7d' :: rest) =
        '\n' :: (List.replicate 2 ' ' ++ '\x7d' :: rest) from rfl] at hc
      rw [List.head?_cons, Option.some.injEq] at hc
      subst hc
      exact ⟨by decide, by decide, by decide, by decide⟩))
    (by
      rw [skipWs_nlIndent]
      exact skipWs_cons_not '\x7d' rest (by decide) (by decide) (by decide) (by decide))]
  rfl

/-- The first line of a printed non-empty object. -/
theorem dumpVal_obj_cons (lvl : Nat) (k : Str) (v : Json) (kvs : List (Str × Json)) :
    dumpVal lvl (.obj ((k, v) :: kvs)) =
      '\x7b' :: (nlIndent (lvl + 1) ++ dumpStr k ++ ':' :: ' ' :: dumpVal (lvl + 1) v
        ++ dumpMoreObj (lvl + 1) kvs ++ nlIndent lvl ++ ['\x7d']) := rfl

/-- A printed user record starts with a non-whitespace character. -/
theorem skipWs_dumpRecord (r : UserRecord) (l : Str) :
    skipWs (dumpVal 1 (userRecordJson r) ++ l) = dumpVal 1 (userRecordJson r) ++ l := by
  simp only [userRecordJson, dumpVal_obj_cons, List.cons_append]
  exact skipWs_cons_not '\x7b' _ (by decide) (by decide) (by decide) (by decide)

/-- Parsing the printed member list of the registry object, one user record
per member, starting from the first member's key. -/
theorem parseMembers_reg_loop (us : List (Str × UserRecord)) :
    ∀ (f : Nat) (k : Str) (r : UserRecord) (acc : List (Str × Json)) (rest : Str),
    parseMembers (f + 6 * us.length + 6)
      (dumpStr k ++ ':' :: ' ' :: (dumpVal 1 (userRecordJson r) ++
        (dumpMoreObj 1 (us.map fun p => (p.1, userRecordJson p.2)) ++
          (nlIndent 0 ++ '\x7d' :: rest)))) acc
      = some (.obj (us.foldl (fun a p => insertKV a p.1 (userRecordJson p.2))
          (insertKV acc k (userRecordJson r))), rest) := by
  induction us with
  | nil =>
    intro f k r acc rest
    simp only [List.map_nil, List.length_nil, List.foldl_nil]
    rw [show dumpMoreObj 1 [] = [] from rfl, List.nil_append]
    rw [show f + 6 * 0 + 6 = (f + 5) + 1 from by simp]
    rw [parseMembers_close (f + 5) k (userRecordJson r) (dumpVal 1 (userRecordJson r)) _ _ acc
      (skipWs_dumpRecord r _) (parseVal_record f r _)
      (by
        rw [skipWs_nlIndent]
        exact skipWs_cons_not '\x7d' rest (by decide) (by decide) (by decide) (by decide))]
  | cons p us' ih =>
    intro f k r acc rest
    obtain ⟨k2, r2⟩ := p
    rw [show dumpMoreObj 1 (((k2, r2) :: us').map fun p => (p.1, userRecordJson p.2)) ++
        (nlIndent 0 ++ '\x7d' :: rest) =
        ',' :: (nlIndent 1 ++ (dumpStr k2 ++ ':' :: ' ' :: (dumpVal 1 (userRecordJson r2) ++
          (dumpMoreObj 1 (us'.map fun p => (p.1, userRecordJson p.2)) ++
            (nlIndent 0 ++ '\x7d' :: rest))))) from by
      simp [dumpMoreObj, List.append_assoc]]
    rw [show f + 6 * List.length ((k2, r2) :: us') + 6 = (f + 6 * us'.length + 11) + 1 from by
      simp [List.length_cons]; ring]
    rw [parseMembers_more (f + 6 * us'.length + 11) k (userRecordJson r)
      (dumpVal 1 (userRecordJson r)) _ _ acc
      (skipWs_dumpRecord r _) (parseVal_record (f + 6 * us'.length + 6) r _)
      (skipWs_cons_not ',' _ (by decide) (by decide) (by decide) (by decide))]
    rw [skipWs_nlIndent, skipWs_dumpStr]
    rw [show f + 6 * us'.length + 11 = (f + 5) + 6 * us'.length + 6 from by ring]
    rw [ih (f + 5) k2 r2 (insertKV acc k (userRecordJson r)) rest]
    simp [List.foldl_cons]

/-- The printed registry object with at least one user parses back to the
member fold. -/
theorem parseVal_regJson (f : Nat) (k : Str) (r : UserRecord)
    (us : List (Str × UserRecord)) (rest : Str) :
    parseVal (f + 6 * us.length + 13) (dumpVal 0 (regJson ((k, r) :: us)) ++ rest)
      = some (.obj (us.foldl (fun a p => insertKV a p.1 (userRecordJson p.2))
          (insertKV [] k (userRecordJson r))), rest) := by
  rw [show dumpVal 0 (regJson ((k, r) :: us)) ++ rest =
      '\x7b' :: (nlIndent 1 ++ (dumpStr k ++ ':' :: ' ' :: (dumpVal 1 (userRecordJson r) ++
        (dumpMoreObj 1 (us.map fun p => (p.1, userRecordJson p.2)) ++
          (nlIndent 0 ++ '\x7d' :: rest))))) from by
    simp [regJson, dumpVal_obj_cons, List.append_assoc]]
  rw [show f + 6 * us.length + 13 = (f + 6 * us.length + 12) + 1 from rfl]
  rw [parseVal_obj_nonempty (f + 6 * us.length + 12) _ _
    (by rw [skipWs_nlIndent, skipWs_dumpStr]) (by simp [dumpStr]) (by simp [dumpStr])]
  rw [show f + 6 * us.length + 12 = (f + 6) + 6 * us.length + 6 from by ring]
  exact parseMembers_reg_loop us (f + 6) k r [] rest

/-- Printed string literals are at least two characters. -/
theorem dumpStr_length (s : Str) : 2 ≤ (dumpStr s).length := by
  rw [dumpStr]
  simp [List.length_cons, List.length_append]

/-- A printed user record is at least four characters. -/
theorem record_dump_length (r : UserRecord) : 4 ≤ (dumpVal 1 (userRecordJson r)).length := by
  simp only [userRecordJson, dumpVal_obj_cons]
  simp [nlIndent, List.length_append]

/-- Each subsequent registry member prints to at least seven characters. -/
theorem dumpMoreObj_reg_length (us : List (Str × UserRecord)) :
    7 * us.length ≤ (dumpMoreObj 1 (us.map fun p => (p.1, userRecordJson p.2))).length := by
  induction us with
  | nil => simp [dumpMoreObj]
  | cons p us' ih =>
    obtain ⟨k, r⟩ := p
    have h1 := dumpStr_length k
    have h2 := record_dump_length r
    rw [List.map_cons]
    rw [show dumpMoreObj 1 ((k, userRecordJson r) ::
        us'.map fun p => (p.1, userRecordJson p.2)) =
      ',' :: nlIndent 1 ++ dumpStr k ++ ':' :: ' ' :: dumpVal 1 (userRecordJson r) ++
        dumpMoreObj 1 (us'.map fun p => (p.1, userRecordJson p.2)) from rfl]
    simp only [nlIndent, List.length_cons, List.length_append, List.length_replicate,
      List.length_cons]
    omega

/-- A printed non-empty registry is long enough to pay for the parser fuel
its member count requires. -/
theorem reg_length (k : Str) (r : UserRecord) (us : List (Str × UserRecord)) :
    6 * ((k, r) :: us).length + 6 ≤ (dumpVal 0 (regJson ((k, r) :: us))).length := by
  have h1 := dumpStr_length k
  have h2 := record_dump_length r
  have h3 := dumpMoreObj_reg_length us
  rw [show regJson ((k, r) :: us) =
      .obj ((k, userRecordJson r) :: us.map fun p => (p.1, userRecordJson p.2)) from by
    simp [regJson]]
  rw [dumpVal_obj_cons]
  simp only [nlIndent, List.length_cons, List.length_append, List.length_replicate,
    Nat.zero_add]
  omega

/-- Setting a key absent from a dict appends the pair at the end. -/
theorem insertKV_fresh (l : List (Str × Json)) (k : Str) (v : Json)
    (h : ∀ p ∈ l, p.1 ≠ k) : insertKV l k v = l ++ [(k, v)] := by
  induction l with
  | nil => rfl
  | cons a tl ih =>
    obtain ⟨k1, v1⟩ := a
    have hk1 : (k1 == k) = false := by
      rw [beq_eq_false_iff_ne]
      exact h (k1, v1) (by simp)
    simp only [insertKV, hk1, Bool.false_eq_true, if_false, List.cons_append]
    rw [ih (fun p hp => h p (List.mem_cons_of_mem _ hp))]

/-- Folding fresh inserts over users with pairwise-distinct ids appends
their records in order. -/
theorem foldl_insertKV_map (us : List (Str × UserRecord)) :
    ∀ (acc : List (Str × Json)),
    (us.map Prod.fst).Nodup →
    (∀ p ∈ us, ∀ q ∈ acc, q.1 ≠ p.1) →
    us.foldl (fun a p => insertKV a p.1 (userRecordJson p.2)) acc =
      acc ++ us.map (fun p => (p.1, userRecordJson p.2)) := by
  induction us with
  | nil => intro acc _ _; simp
  | cons p us' ih =>
    intro acc hnd hdisj
    obtain ⟨k, r⟩ := p
    rw [List.map_cons, List.nodup_cons] at hnd
    rw [List.foldl_cons]
    have hins : insertKV acc k (userRecordJson r) = acc ++ [(k, userRecordJson r)] :=
      insertKV_fresh acc k _ (fun q hq => hdisj (k, r) (by simp) q hq)
    rw [hins]
    have hdisj2 : ∀ p ∈ us', ∀ q ∈ acc ++ [(k, userRecordJson r)], q.1 ≠ p.1 := by
      intro p hp q hq
      rcases List.mem_append.mp hq with hq1 | hq2
      · exact hdisj p (List.mem_cons_of_mem _ hp) q hq1
      · have hqe : q = (k, userRecordJson r) := by simpa using hq2
        subst hqe
        intro hcontra
        have hmem : p.1 ∈ us'.map Prod.fst := List.mem_map_of_mem _ hp
        rw [← hcontra] at hmem
        exact hnd.1 hmem
    rw [ih _ hnd.2 hdisj2]
    simp

/-- Serializing the registry and parsing it back with `json.loads`
reproduces the registry object, for pairwise-distinct userIds. -/
theorem jsonLoads_regJson (users : List (Str × UserRecord))
    (hnd : (users.map Prod.fst).Nodup) :
    jsonLoads (dumpVal 0 (regJson users)) = some (regJson users) := by
  cases users with
  | nil => rfl
  | cons u us =>
    obtain ⟨k, r⟩ := u
    have hws : skipWs (dumpVal 0 (regJson ((k, r) :: us)))
        = dumpVal 0 (regJson ((k, r) :: us)) := by
      rw [show regJson ((k, r) :: us) =
          .obj ((k, userRecordJson r) :: us.map fun p => (p.1, userRecordJson p.2)) from by
        simp [regJson]]
      rw [dumpVal_obj_cons]
      exact skipWs_cons_not '\x7b' _ (by decide) (by decide) (by decide) (by decide)
    have hlen := reg_length k r us
    obtain ⟨g, hg⟩ : ∃ g, (dumpVal 0 (regJson ((k, r) :: us))).length + 1
        = g + 6 * us.length + 13 := by
      refine ⟨(dumpVal 0 (regJson ((k, r) :: us))).length - (6 * us.length + 12), ?_⟩
      simp only [List.length_cons] at hlen
      omega
    have hpv : parseVal (g + 6 * us.length + 13) (dumpVal 0 (regJson ((k, r) :: us)))
        = some (.obj (us.foldl (fun a p => insertKV a p.1 (userRecordJson p.2))
            (insertKV [] k (userRecordJson r))), []) := by
      have h := parseVal_regJson g k r us []
      rwa [List.append_nil] at h
    have hfold : us.foldl (fun a p => insertKV a p.1 (userRecordJson p.2))
        (insertKV [] k (userRecordJson r))
        = (k, userRecordJson r) :: us.map (fun p => (p.1, userRecordJson p.2)) := by
      rw [List.map_cons, List.nodup_cons] at hnd
      rw [show insertKV [] k (userRecordJson r) = [(k, userRecordJson r)] from rfl]
      rw [foldl_insertKV_map us [(k, userRecordJson r)] hnd.2 ?_]
      · simp
      · intro p hp q hq
        have hqe : q = (k, userRecordJson r) := by simpa using hq
        subst hqe
        intro hcontra
        have hmem : p.1 ∈ us.map Prod.fst := List.mem_map_of_mem _ hp
        rw [← hcontra] at hmem
        exact hnd.1 hmem
    rw [jsonLoads, hws, hg, hpv, hfold]
    simp [regJson, skipWs]

/-! ## Claim C3: registry round-trip -/

/-- C3: for every mapping of userIds (pairwise distinct, as in any mapping)
to records `(token, display, createdAt)`, serializing with
`save_users_registry` (2-space-indented JSON, as `json.dumps(indent=2)`
emits it) and reading the bytes back as `load_users_registry` does yields
exactly the same records — same count, same order, token, display and
createdAt preserved exactly — paired with the file's existing sha. -/
theorem registry_roundtrip (users : List (Str × UserRecord))
    (hnd : (users.map Prod.fst).Nodup) (sha : Str) :
    load_users_registry (some ⟨sha, save_users_registry (regJson users)⟩)
      = ⟨some sha, regJson users⟩ := by
  simp only [load_users_registry, save_users_registry, jsonLoads_regJson users hnd]

theorem registry_roundtrip_witness :
    ((([(lit "alice", ⟨lit "tok", lit "Alice", 1700000000000⟩),
        (lit "bob", ⟨lit "t2", lit "", 5⟩)] : List (Str × UserRecord)).map Prod.fst).Nodup)
    ∧ load_users_registry (some ⟨lit "sha1",
        save_users_registry (regJson [(lit "alice", ⟨lit "tok", lit "Alice", 1700000000000⟩),
          (lit "bob", ⟨lit "t2", lit "", 5⟩)])⟩)
      = ⟨some (lit "sha1"), regJson [(lit "alice", ⟨lit "tok", lit "Alice", 1700000000000⟩),
          (lit "bob", ⟨lit "t2", lit "", 5⟩)]⟩ :=
  ⟨by decide, registry_roundtrip _ (by decide) (lit "sha1")⟩
